import Mathlib

/-!
Verification of the Highcharts map module (`ts/Maps/Map.ts`).

The development shallowly embeds the module's operations:

* a JS value model `JValue` for nested option objects (numbers as `ℚ`);
* the options merge pipeline of the `mapChart` factory;
* the SVG path tokenizer `splitPath`;
* the geometry generator `selectiveRoundedRect` and the
  `topbutton` / `bottombutton` symbol callbacks;
* a module-state layer for the `Highcharts.maps` registry.

Functions of the repository that are outside the given sources
(`merge`, `pick`, `pathToSegments`, the generic `Chart` constructor,
map-data loading) are modelled from the specification; their doc
comments say so explicitly.
-/

namespace HighchartsMaps

/-- JavaScript option values: null, booleans, numbers (modelled as `ℚ`),
strings, arrays (treated as atomic by the merge, as Highcharts does not
deep-merge arrays) and plain objects as ordered association lists. -/
inductive JValue where
  | null : JValue
  | bool (b : Bool) : JValue
  | num (q : ℚ) : JValue
  | str (s : String) : JValue
  | arr (xs : List JValue) : JValue
  | obj (fields : List (String × JValue)) : JValue

/-- Test for a plain object value. -/
def JValue.isObjB : JValue → Bool
  | JValue.obj _ => true
  | _ => false

/-- Property read on an object's field list (first occurrence wins,
like JS property lookup). -/
def lookupField : List (String × JValue) → String → Option JValue
  | [], _ => none
  | (k', v) :: rest, k => if k' = k then some v else lookupField rest k

/-- Property write on an object's field list: replace the first binding
of the key, or append a new binding (JS assignment). -/
def setField : List (String × JValue) → String → JValue → List (String × JValue)
  | [], k, v => [(k, v)]
  | (k', v') :: rest, k, v =>
    if k' = k then (k, v) :: rest else (k', v') :: setField rest k v

/-- Property deletion on an object's field list; used to model an
assignment of `undefined` observationally. -/
def removeField (fs : List (String × JValue)) (k : String) : List (String × JValue) :=
  fs.filter fun kv => if kv.1 = k then false else true

/-- Read a nested option value along a path of keys. -/
def getPath : JValue → List String → Option JValue
  | v, [] => some v
  | JValue.obj fs, k :: rest =>
    match lookupField fs k with
    | some v => getPath v rest
    | none => none
  | _, _ :: _ => none

/-- Modelled from the spec: `U.merge` (Core/Utilities.js is not among the
sources) "deep-merges nested configuration objects": plain objects are
merged key by key recursively, any other value of the later layer
replaces the earlier one.  `merge(a, b, c)` of the source is
`merge2 (merge2 a b) c`. -/
def merge2 : JValue → JValue → JValue
  | JValue.obj da, JValue.obj ua =>
    JValue.obj
      (mergeMap da ua ++ ua.filter fun kv => (lookupField da kv.1).isNone)
  | _, u => u
where
  mergeMap : List (String × JValue) → List (String × JValue) → List (String × JValue)
  | [], _ => []
  | (k, dv) :: rest, ua =>
    (k,
      match lookupField ua k with
      | some uv => merge2 dv uv
      | none => dv) :: mergeMap rest ua

/-- The value a key of the earlier layer gets after the merge: merged
with the later layer's value when that layer binds the key, kept
otherwise.  `merge2.mergeMap da ua` is entrywise `mergeEntry ua`. -/
def mergeEntry (ua : List (String × JValue)) (k : String) (dv : JValue) : JValue :=
  match lookupField ua k with
  | some uv => merge2 dv uv
  | none => dv

/-- Modelled from the spec: `U.pick` (Core/Utilities.js is not among the
sources) returns the first argument that is neither `undefined` nor
`null`; `none` models `undefined`. -/
def pickJS (a : Option JValue) (b : JValue) : JValue :=
  match a with
  | some JValue.null => b
  | some v => v
  | none => b

/-- The `hiddenAxis` literal of `mapChart`. -/
def hiddenAxis : JValue :=
  JValue.obj
    [("endOnTick", JValue.bool false),
     ("visible", JValue.bool false),
     ("minPadding", JValue.num 0),
     ("maxPadding", JValue.num 0),
     ("startOnTick", JValue.bool false)]

/-- The `chart` entry of the forced options layer of `mapChart`. -/
def forcedChartFields : List (String × JValue) :=
  [("inverted", JValue.bool false),
   ("alignTicks", JValue.bool false)]

/-- The forced options layer of `mapChart`: `chart.inverted` and
`chart.alignTicks` are forced to `false`. -/
def forcedOptions : JValue :=
  JValue.obj [("chart", JValue.obj forcedChartFields)]

/-- The map-specific defaults layer of `mapChart`, parametrised by the
`credits` entry of the global default options (`getOptions().credits`,
whose state lives outside this module). -/
def mapDefaults (defaultCreditsOptions : List (String × JValue)) : JValue :=
  JValue.obj
    [("chart",
      JValue.obj
        [("panning",
          JValue.obj
            [("enabled", JValue.bool true),
             ("type", JValue.str "xy")]),
         ("type", JValue.str "map")]),
     ("credits",
      JValue.obj
        [("mapText",
          pickJS (lookupField defaultCreditsOptions "mapText")
            (JValue.str " © <a href=\"\x7bgeojson.copyrightUrl\x7d\">\x7bgeojson.copyrightShort\x7d</a>")),
         ("mapTextFull",
          pickJS (lookupField defaultCreditsOptions "mapTextFull")
            (JValue.str "\x7bgeojson.copyright\x7d"))]),
     ("tooltip",
      JValue.obj [("followTouchMove", JValue.bool false)]),
     ("xAxis", hiddenAxis),
     ("yAxis", merge2 hiddenAxis (JValue.obj [("reversed", JValue.bool true)]))]

/-- The final step of `mapChart`'s option assembly:
`options.series = userOptions.series = seriesOptions` writes the saved
series value back onto the merged object; writing back `undefined`
(the user had no `series`) is modelled as removal. -/
def restoreSeries (v : JValue) (s : Option JValue) : JValue :=
  match v with
  | JValue.obj fs =>
    match s with
    | some sv => JValue.obj (setField fs "series" sv)
    | none => JValue.obj (removeField fs "series")
  | w => w

/-- The option composition performed by the `mapChart` factory
(Map.ts lines 486 to 526): save `options.series`, null it out, deep
merge map defaults, user options and forced options, then restore the
saved series value unmerged. -/
def mapChartOptions (defaultCreditsOptions : List (String × JValue))
    (userOptions : List (String × JValue)) : JValue :=
  let seriesOptions := lookupField userOptions "series"
  let options1 := JValue.obj (setField userOptions "series" JValue.null)
  restoreSeries
    (merge2 (merge2 (mapDefaults defaultCreditsOptions) options1) forcedOptions)
    seriesOptions

/-- Modelled from the spec: the generic chart constructor
(Core/Chart/Chart.js is not among the sources) to which `mapChart`
delegates; it holds the composed options of the chart it renders. -/
structure Chart where
  options : JValue

/-- The `mapChart` factory: compose the options and delegate to the
generic chart constructor. -/
def mapChart (defaultCreditsOptions userOptions : List (String × JValue)) : Chart :=
  Chart.mk (mapChartOptions defaultCreditsOptions userOptions)

/-- The user's options object as left behind by `mapChart`: its `series`
property is first nulled out and then assigned the saved value again
(an assignment of `undefined` is modelled as removal). -/
def mapChartUserAfter (userOptions : List (String × JValue)) : List (String × JValue) :=
  match lookupField userOptions "series" with
  | some sv => setField (setField userOptions "series" JValue.null) "series" sv
  | none => removeField (setField userOptions "series" JValue.null) "series"

/-- Bool test that two key paths overlap: one is a leading part of the
other, so a write along one affects reads along the other. -/
def overlapsB (p q : List String) : Bool := p.isPrefixOf q || q.isPrefixOf p

/-- Bool predicate: the path misses the object `F` entirely, leaving the
traversal through `F`'s key spine at a key `F` does not bind. A merge
with `F` as the later layer cannot affect reads along such a path. -/
def avoidsB : JValue → List String → Bool
  | _, [] => false
  | JValue.obj fs, k :: rest =>
    match lookupField fs k with
    | none => true
    | some fv => avoidsB fv rest
  | _, _ :: _ => false

/-! ### SVG path segments and the rounded-rectangle generator -/

/-- SVG path segments as produced by the symbol generators: move, line,
cubic curve and close commands with rational coordinates. -/
inductive Seg where
  | M (x y : ℚ) : Seg
  | L (x y : ℚ) : Seg
  | C (x1 y1 x2 y2 x y : ℚ) : Seg
  | Z : Seg
deriving DecidableEq

/-- The command letter of a segment. -/
def segLetter : Seg → Char
  | Seg.M _ _ => 'M'
  | Seg.L _ _ => 'L'
  | Seg.C _ _ _ _ _ _ => 'C'
  | Seg.Z => 'Z'

/-- The point at which a segment leaves the pen, if any. -/
def segEnd : Seg → Option (ℚ × ℚ)
  | Seg.M a b => some (a, b)
  | Seg.L a b => some (a, b)
  | Seg.C _ _ _ _ e f => some (e, f)
  | Seg.Z => none

/-- The rounded-rectangle path generator of Map.ts (lines 369 to 399):
a clockwise trace from the top-left radius point, alternating edges and
corner curves, closed with `Z`. -/
def selectiveRoundedRect (x y w h rTopLeft rTopRight rBottomRight rBottomLeft : ℚ) :
    List Seg :=
  [Seg.M (x + rTopLeft) y,
   Seg.L (x + w - rTopRight) y,
   Seg.C (x + w - rTopRight / 2) y (x + w) (y + rTopRight / 2) (x + w) (y + rTopRight),
   Seg.L (x + w) (y + h - rBottomRight),
   Seg.C (x + w) (y + h - rBottomRight / 2) (x + w - rBottomRight / 2) (y + h)
     (x + w - rBottomRight) (y + h),
   Seg.L (x + rBottomLeft) (y + h),
   Seg.C (x + rBottomLeft / 2) (y + h) x (y + h - rBottomLeft / 2) x (y + h - rBottomLeft),
   Seg.L x (y + rTopLeft),
   Seg.C x (y + rTopLeft / 2) (x + rTopLeft / 2) y (x + rTopLeft) y,
   Seg.Z]

/-- The options object passed to symbol callbacks; only `r` matters here. -/
structure SymbolOptionsObject where
  r : Option ℚ

/-- The radius picked by the button symbols: `(options && options.r) || 0`.
A missing options object, a missing `r` and a zero `r` all yield `0`. -/
def symbolRadius (options : Option SymbolOptionsObject) : ℚ :=
  (options.bind SymbolOptionsObject.r).getD 0

/-- The `topbutton` symbol callback (Map.ts lines 400 to 409). -/
def topbutton (x y w h : ℚ) (options : Option SymbolOptionsObject) : List Seg :=
  let r := symbolRadius options
  selectiveRoundedRect (x - 1) (y - 1) w h r r 0 0

/-- The `bottombutton` symbol callback (Map.ts lines 410 to 419). -/
def bottombutton (x y w h : ℚ) (options : Option SymbolOptionsObject) : List Seg :=
  let r := symbolRadius options
  selectiveRoundedRect (x - 1) (y - 1) w h 0 0 r r

/-! ### The `splitPath` tokenizer -/

/-- Whitespace as matched by the `\s` class of JS regular expressions
(space, tab, line feed, vertical tab, form feed, carriage return,
no-break space, byte order mark; exotic Unicode space code points are
not needed by any claim). -/
def isJsSpace (c : Char) : Bool :=
  c.toNat = 32 || c.toNat = 9 || c.toNat = 10 || c.toNat = 11 ||
    c.toNat = 12 || c.toNat = 13 || c.toNat = 160 || c.toNat = 65279

/-- The character class `[A-Za-z]` used by the letter-spacing
substitution of `splitPath`. -/
def isAsciiLetter (c : Char) : Bool :=
  (65 ≤ c.toNat && c.toNat ≤ 90) || (97 ≤ c.toNat && c.toNat ≤ 122)

/-- The character class `[A-za-z]` used by the token classification of
`splitPath`, exactly as written in the source: the range `A-z` also
covers the six ASCII characters between `Z` and `a`. -/
def matchesAZaz (c : Char) : Bool :=
  (65 ≤ c.toNat && c.toNat ≤ 122) || (97 ≤ c.toNat && c.toNat ≤ 122)

/-- The character class `[ ,;]` that `splitPath` splits on: space,
comma and semicolon. -/
def isSplitDelim (c : Char) : Bool :=
  c.toNat = 32 || c.toNat = 44 || c.toNat = 59

/-- Decimal digit test, as in `parseFloat`'s grammar. -/
def isDigitC (c : Char) : Bool :=
  48 ≤ c.toNat && c.toNat ≤ 57

/-- Numeric value of a digit character. -/
def digitVal (c : Char) : ℕ := c.toNat - 48

/-- Value of a big-endian digit string. -/
def digitsToNat (ds : List Char) : ℕ :=
  ds.foldl (fun a c => 10 * a + digitVal c) 0

/-- Model of the JS `parseFloat` builtin on the tokens `splitPath` feeds
it: leading whitespace, an optional sign, then decimal digits with an
optional fractional part; `none` models `NaN`.  An exponent part cannot
occur because any token containing `e` or `E` is classified as a
command and never parsed. -/
def parseFloatJs (s : List Char) : Option ℚ :=
  let s1 := s.dropWhile isJsSpace
  let sgn : ℚ :=
    match s1 with
    | c :: _ => if c = '-' then -1 else 1
    | [] => 1
  let s2 :=
    match s1 with
    | c :: r => if c = '-' || c = '+' then r else c :: r
    | [] => []
  let ip := s2.takeWhile isDigitC
  let s3 := s2.dropWhile isDigitC
  let fp :=
    match s3 with
    | '.' :: r => r.takeWhile isDigitC
    | _ => []
  if ip.isEmpty && fp.isEmpty then none
  else some (sgn * ((digitsToNat ip : ℚ) + (digitsToNat fp : ℚ) / (10 : ℚ) ^ fp.length))

/-- A token of the flat sequence `splitPath` builds: a JS number
(`none` models `NaN`) or a string kept verbatim. -/
inductive PathItem where
  | num (v : Option ℚ) : PathItem
  | str (s : List Char) : PathItem
deriving DecidableEq

/-- Token classification of `splitPath`: a token matching `[A-za-z]` is
kept, any other token goes through `parseFloat`. -/
def classifyToken (t : List Char) : PathItem :=
  if t.any matchesAZaz then PathItem.str t else PathItem.num (parseFloatJs t)

/-- The substitution `replace(/([A-Za-z])/g, ' $1 ')`: a space on each
side of every ASCII letter. -/
def spaceOutLetters (s : List Char) : List Char :=
  (s.map fun c => if isAsciiLetter c then [' ', c, ' '] else [c]).flatten

/-- The two substitutions `replace(/^\s*$/, '')` and `replace(/\s*$/, '')`:
strip leading and trailing whitespace. -/
def trimJs (s : List Char) : List Char :=
  ((s.dropWhile isJsSpace).reverse.dropWhile isJsSpace).reverse

/-- Worker for `String.prototype.split(/[ ,;]+/)`: `some cur` holds the
reversed characters of the token being accumulated, `none` means a
delimiter run is being consumed. -/
def splitJsAux : List Char → Option (List Char) → List (List Char)
  | [], some cur => [cur.reverse]
  | [], none => [[]]
  | c :: cs, some cur =>
    if isSplitDelim c then cur.reverse :: splitJsAux cs none
    else splitJsAux cs (some (c :: cur))
  | c :: cs, none =>
    if isSplitDelim c then splitJsAux cs none
    else splitJsAux cs (some [c])

/-- Model of `String.prototype.split(/[ ,;]+/)`: split on maximal runs
of space, comma and semicolon, with an empty token at an end that
starts or finishes with a delimiter. -/
def splitJs (s : List Char) : List (List Char) :=
  splitJsAux s (some [])

/-- The flat token sequence `splitPath` builds from a path string before
segment grouping (Map.ts lines 329 to 346). -/
def splitPathTokens (s : List Char) : List PathItem :=
  (splitJs (trimJs (spaceOutLetters s))).map classifyToken

/-- Worker for the segment grouping: `cur` is the segment being
collected; every string token starts a new segment. -/
def segGo : List PathItem → List PathItem → List (List PathItem)
  | [], cur => [cur]
  | PathItem.str s :: rest, cur =>
    if cur.isEmpty then segGo rest [PathItem.str s]
    else cur :: segGo rest [PathItem.str s]
  | PathItem.num v :: rest, cur => segGo rest (cur ++ [PathItem.num v])

/-- Modelled from the spec: `SVGRenderer.prototype.pathToSegments`
(Core/Renderer/SVG/SVGRenderer.js is not among the sources), the
"downstream segmenter" that "groups tokens into per-command segments
(e.g., `M x y`, `C x1 y1 x2 y2 x y`)": every command letter starts a
segment that collects the numeric operands following it. -/
def pathToSegments (arr : List PathItem) : List (List PathItem) :=
  segGo arr []

/-- The `splitPath` utility of Map.ts (lines 324 to 352) on its string
argument: space out letters, trim, split, classify, then group into
per-command segments. -/
def splitPath (s : List Char) : List (List PathItem) :=
  pathToSegments (splitPathTokens s)

/-! ### Decimal rendering of the parsed numbers, for re-joining -/

/-- Little-endian decimal digits of `n`, with explicit fuel so that the
recursion is structural and evaluates inside the kernel. -/
def natDigitsRev : ℕ → ℕ → List ℕ
  | 0, _ => []
  | fuel + 1, n => if n = 0 then [] else n % 10 :: natDigitsRev fuel (n / 10)

/-- The character of a decimal digit. -/
def digitChar (d : ℕ) : Char := Char.ofNat (48 + d)

/-- Big-endian decimal digit string of `n`; `0` renders as `"0"`. -/
def natDigits (n : ℕ) : List Char :=
  if n = 0 then ['0'] else ((natDigitsRev n n).map digitChar).reverse

/-- Digit string of `m` left-padded with zeros to `k` digits. -/
def padDigits (k m : ℕ) : List Char :=
  List.replicate (k - (natDigits m).length) '0' ++ natDigits m

/-- Decimal rendering of a parsed coordinate (JS number-to-string on
the values `parseFloat` produces, which all have a finite decimal
expansion): sign, integer digits, a dot and `q.den` fraction digits. -/
def renderNum (q : ℚ) : List Char :=
  let d := q.den
  let n := q.num.natAbs
  let m := n * 10 ^ d / d
  (if q.num < 0 then ['-'] else []) ++
    natDigits (m / 10 ^ d) ++ '.' :: padDigits d (m % 10 ^ d)

/-- String form of one token, as JS `Array.prototype.join` stringifies
array elements. -/
def renderItem : PathItem → List Char
  | PathItem.num (some q) => renderNum q
  | PathItem.num none => ['N', 'a', 'N']
  | PathItem.str s => s

/-- Join string pieces with single spaces (JS `join(' ')`). -/
def joinSp : List (List Char) → List Char
  | [] => []
  | [x] => x
  | x :: y :: rest => x ++ ' ' :: joinSp (y :: rest)

/-- Re-join the segments produced by `splitPath` back into one path
string: tokens joined with spaces inside each segment, segments joined
with spaces. -/
def rejoinSegments (segs : List (List PathItem)) : List Char :=
  joinSp (segs.map fun seg => joinSp (seg.map renderItem))

/-! ### Well-formed path strings for the round-trip claim -/

/-- Abstract token of a well-formed path string: a command letter or the
digit string of a numeric operand. -/
inductive RawTok where
  | cmd (c : Char) : RawTok
  | num (s : List Char) : RawTok
deriving DecidableEq

/-- String form of an abstract token. -/
def renderRaw : RawTok → List Char
  | RawTok.cmd c => [c]
  | RawTok.num s => s

/-- A well-formed path string: its tokens joined by single spaces. -/
def renderPath (ts : List RawTok) : List Char :=
  joinSp (ts.map renderRaw)

/-- A character allowed inside a numeric operand token: it must not be
a letter in the code's classification sense, a split delimiter or
whitespace. -/
def goodNumChar (c : Char) : Bool :=
  !matchesAZaz c && !isSplitDelim c && !isJsSpace c

/-- Well-formedness of one abstract token: commands are single ASCII
letters, numeric operands are nonempty, contain only operand characters
and parse to an actual number. -/
def goodTok : RawTok → Bool
  | RawTok.cmd c => isAsciiLetter c
  | RawTok.num s => !s.isEmpty && s.all goodNumChar && (parseFloatJs s).isSome

/-- Well-formedness of a path: at least one token, all of them good. -/
def wellFormedPath (ts : List RawTok) : Bool :=
  !ts.isEmpty && ts.all goodTok

/-- The space padding the letter-spacing substitution puts on each side
of a command token; numeric tokens are left alone. -/
def sidePad : RawTok → List Char
  | RawTok.cmd _ => [' ']
  | RawTok.num _ => []

/-- The spaced-out, trimmed form of a well-formed path string: token
cores separated by the space runs the substitution leaves between them. -/
def cchain : List RawTok → List Char
  | [] => []
  | [t] => renderRaw t
  | t :: r :: rest =>
    renderRaw t ++ (sidePad t ++ ' ' :: sidePad r) ++ cchain (r :: rest)

/-- Last element of a nonempty token list. -/
def lastTok : RawTok → List RawTok → RawTok
  | t, [] => t
  | _, r :: rest => lastTok r rest

/-- The classified token an abstract token turns into. -/
def interpTok : RawTok → PathItem
  | RawTok.cmd c => PathItem.str [c]
  | RawTok.num s => PathItem.num (parseFloatJs s)

/-- The abstract token of the re-joined string corresponding to an
abstract token of the original string. -/
def reTok : RawTok → RawTok
  | RawTok.cmd c => RawTok.cmd c
  | RawTok.num s =>
    RawTok.num
      (match parseFloatJs s with
       | some q => renderNum q
       | none => ['N', 'a', 'N'])

/-- The classification rule as the specification words it, letter-based:
used to exhibit where the code disagrees with it. -/
def specClassifyToken (t : List Char) : PathItem :=
  if t.any isAsciiLetter then PathItem.str t else PathItem.num (parseFloatJs t)

/-- The delimiter class as the specification words it
("whitespace/comma/semicolon"): used to exhibit where the code
disagrees with it. -/
def specIsDelim (c : Char) : Bool :=
  isJsSpace c || c.toNat = 44 || c.toNat = 59

/-! ### Module state: the `Highcharts.maps` registry -/

/-- Observable module-level state the map module can reach: the
process-wide `Highcharts.maps` registry and the global default options.
Operations are embedded in state-passing style so that reading or
writing either would show in their type. -/
structure ModuleState where
  maps : List (String × JValue)
  defaultOptions : JValue

/-- The registry value the module installs: `H.maps = {}` (Map.ts
line 362). -/
def mapsInit : List (String × JValue) := []

/-- State-threaded `splitPath`; the source body never mentions
`H.maps` or the default options, so the state passes through. -/
def splitPathOp (st : ModuleState) (s : List Char) :
    ModuleState × List (List PathItem) :=
  (st, splitPath s)

/-- State-threaded `selectiveRoundedRect`; the source body is a single
array literal over its arguments. -/
def selectiveRoundedRectOp (st : ModuleState)
    (x y w h rTopLeft rTopRight rBottomRight rBottomLeft : ℚ) :
    ModuleState × List Seg :=
  (st, selectiveRoundedRect x y w h rTopLeft rTopRight rBottomRight rBottomLeft)

/-- State-threaded `topbutton` symbol callback. -/
def topbuttonOp (st : ModuleState) (x y w h : ℚ)
    (options : Option SymbolOptionsObject) : ModuleState × List Seg :=
  (st, topbutton x y w h options)

/-- State-threaded `bottombutton` symbol callback. -/
def bottombuttonOp (st : ModuleState) (x y w h : ℚ)
    (options : Option SymbolOptionsObject) : ModuleState × List Seg :=
  (st, bottombutton x y w h options)

/-- Modelled from the spec: the generic chart constructor reads the
registry at render time but does not write it. -/
def chartNewOp (st : ModuleState) (o : JValue) : ModuleState × Chart :=
  (st, Chart.mk o)

/-- State-threaded `mapChart` factory: option composition followed by
delegation to the generic constructor. -/
def mapChartOp (st : ModuleState)
    (defaultCreditsOptions userOptions : List (String × JValue)) :
    ModuleState × Chart :=
  chartNewOp st (mapChartOptions defaultCreditsOptions userOptions)

/-- Modelled from the spec: external map-data loading writes one entry
into the registry ("written to at load time"), never evicting. -/
def loadMap (st : ModuleState) (key : String) (data : JValue) : ModuleState :=
  { st with maps := setField st.maps key data }

/-! ### Lemmas on field lists -/

theorem lookupField_setField_self (fs : List (String × JValue)) (k : String) (v : JValue) :
    lookupField (setField fs k v) k = some v := by
  induction fs with
  | nil => simp [setField, lookupField]
  | cons kv rest ih =>
    obtain ⟨k', v'⟩ := kv
    by_cases h : k' = k
    · simp [setField, h, lookupField]
    · simp [setField, h, lookupField, ih]

theorem lookupField_setField_ne (fs : List (String × JValue)) (k k' : String) (v : JValue)
    (h : k' ≠ k) : lookupField (setField fs k v) k' = lookupField fs k' := by
  have h' : ¬ (k = k') := fun hh => h (Eq.symm hh)
  induction fs with
  | nil => simp [setField, lookupField, h']
  | cons kv rest ih =>
    obtain ⟨k'', v''⟩ := kv
    by_cases h2 : k'' = k
    · subst h2
      simp [setField, lookupField, h']
    · simp [setField, lookupField, h2, ih]

theorem removeField_cons (k' : String) (v' : JValue) (rest : List (String × JValue))
    (k : String) :
    removeField ((k', v') :: rest) k =
      if k' = k then removeField rest k else (k', v') :: removeField rest k := by
  by_cases h : k' = k <;> simp [removeField, List.filter_cons, h]

theorem lookupField_removeField_self (fs : List (String × JValue)) (k : String) :
    lookupField (removeField fs k) k = none := by
  induction fs with
  | nil => simp [removeField, lookupField]
  | cons kv rest ih =>
    obtain ⟨k', v'⟩ := kv
    by_cases h : k' = k <;> simp [removeField_cons, lookupField, h, ih]

theorem lookupField_removeField_ne (fs : List (String × JValue)) (k k' : String)
    (h : k' ≠ k) : lookupField (removeField fs k) k' = lookupField fs k' := by
  have h' : ¬ (k = k') := fun hh => h (Eq.symm hh)
  induction fs with
  | nil => simp [removeField, lookupField]
  | cons kv rest ih =>
    obtain ⟨k'', v''⟩ := kv
    by_cases h2 : k'' = k
    · subst h2
      simp [removeField_cons, lookupField, h', ih]
    · simp [removeField_cons, lookupField, h2, ih]

theorem setField_setField (fs : List (String × JValue)) (k : String) (a b : JValue) :
    setField (setField fs k a) k b = setField fs k b := by
  induction fs with
  | nil => simp [setField]
  | cons kv rest ih =>
    obtain ⟨k', v'⟩ := kv
    by_cases h : k' = k <;> simp [setField, h, ih]

theorem setField_lookup_self (fs : List (String × JValue)) (k : String) (v : JValue)
    (h : lookupField fs k = some v) : setField fs k v = fs := by
  induction fs with
  | nil => simp [lookupField] at h
  | cons kv rest ih =>
    obtain ⟨k', v'⟩ := kv
    by_cases h2 : k' = k
    · subst h2
      simp [lookupField] at h
      simp [setField, h]
    · simp [lookupField, h2] at h
      simp [setField, h2, ih h]

theorem setField_of_lookup_none (fs : List (String × JValue)) (k : String) (v : JValue)
    (h : lookupField fs k = none) : setField fs k v = fs ++ [(k, v)] := by
  induction fs with
  | nil => simp [setField]
  | cons kv rest ih =>
    obtain ⟨k', v'⟩ := kv
    by_cases h2 : k' = k
    · simp [lookupField, h2] at h
    · simp [lookupField, h2] at h
      simp [setField, h2, ih h]

theorem removeField_of_lookup_none (fs : List (String × JValue)) (k : String)
    (h : lookupField fs k = none) : removeField fs k = fs := by
  induction fs with
  | nil => simp [removeField]
  | cons kv rest ih =>
    obtain ⟨k', v'⟩ := kv
    by_cases h2 : k' = k
    · simp [lookupField, h2] at h
    · simp [lookupField, h2] at h
      simp [removeField, h2] at ih ⊢
      exact ih h

theorem lookupField_append_some (A B : List (String × JValue)) (k : String) (v : JValue)
    (h : lookupField A k = some v) : lookupField (A ++ B) k = some v := by
  induction A with
  | nil => simp [lookupField] at h
  | cons kv rest ih =>
    obtain ⟨k', v'⟩ := kv
    by_cases h2 : k' = k
    · simp [lookupField, h2] at h ⊢
      exact h
    · simp [lookupField, h2] at h ⊢
      exact ih h

theorem lookupField_append_none (A B : List (String × JValue)) (k : String)
    (h : lookupField A k = none) : lookupField (A ++ B) k = lookupField B k := by
  induction A with
  | nil => simp
  | cons kv rest ih =>
    obtain ⟨k', v'⟩ := kv
    by_cases h2 : k' = k
    · simp [lookupField, h2] at h
    · simp [lookupField, h2] at h ⊢
      exact ih h

theorem lookupField_filter_key (g : String × JValue → Bool) (fs : List (String × JValue))
    (k : String) (hg : ∀ v, g (k, v) = true) :
    lookupField (fs.filter g) k = lookupField fs k := by
  induction fs with
  | nil => simp [lookupField]
  | cons kv rest ih =>
    obtain ⟨k', v'⟩ := kv
    by_cases h2 : k' = k
    · subst h2
      simp [List.filter, hg v', lookupField, ih]
    · rcases h3 : g (k', v') with _ | _ <;> simp [List.filter, h3, lookupField, h2, ih]

theorem lookupField_filter_none (g : String × JValue → Bool) (fs : List (String × JValue))
    (k : String) (h : lookupField fs k = none) :
    lookupField (fs.filter g) k = none := by
  induction fs with
  | nil => simp [lookupField]
  | cons kv rest ih =>
    obtain ⟨k', v'⟩ := kv
    by_cases h2 : k' = k
    · simp [lookupField, h2] at h
    · simp [lookupField, h2] at h
      rcases h3 : g (k', v') with _ | _ <;> simp [List.filter, h3, lookupField, h2, ih h]

/-! ### Lemmas on the deep merge -/

theorem merge2_of_not_obj (d u : JValue) (h : u.isObjB = false) : merge2 d u = u := by
  cases d <;> cases u <;> first
    | rfl
    | simp [JValue.isObjB] at h

theorem merge2_bool_false (d : JValue) : merge2 d (JValue.bool false) = JValue.bool false :=
  merge2_of_not_obj d _ rfl

theorem mergeMap_cons (k : String) (dv : JValue) (rest ua : List (String × JValue)) :
    merge2.mergeMap ((k, dv) :: rest) ua =
      (k, mergeEntry ua k dv) :: merge2.mergeMap rest ua := rfl

theorem lookupField_mergeMap (da ua : List (String × JValue)) (k : String) :
    lookupField (merge2.mergeMap da ua) k = (lookupField da k).map (mergeEntry ua k) := by
  induction da with
  | nil => simp [merge2.mergeMap, lookupField]
  | cons kv rest ih =>
    obtain ⟨k', dv⟩ := kv
    by_cases h : k' = k
    · subst h
      simp [mergeMap_cons, lookupField, mergeEntry]
    · simp [mergeMap_cons, lookupField, h, ih]

theorem merge2_obj_obj (da ua : List (String × JValue)) :
    merge2 (JValue.obj da) (JValue.obj ua) =
      JValue.obj
        (merge2.mergeMap da ua ++ ua.filter fun kv => (lookupField da kv.1).isNone) := rfl

theorem merge2_obj_right (d : JValue) (fs : List (String × JValue)) :
    ∃ gs, merge2 d (JValue.obj fs) = JValue.obj gs := by
  cases d <;> exact ⟨_, rfl⟩

theorem merge2_of_not_obj_left (d u : JValue) (hd : d.isObjB = false) : merge2 d u = u := by
  cases d <;> cases u <;> first
    | rfl
    | simp [JValue.isObjB] at hd

/-! ### Lemmas on nested reads through the merge -/

theorem jvalue_obj_cases (v : JValue) :
    (∃ fs, v = JValue.obj fs) ∨ v.isObjB = false := by
  cases v
  case obj fs => exact Or.inl ⟨fs, rfl⟩
  all_goals exact Or.inr rfl

theorem getPath_nil (v : JValue) : getPath v [] = some v := by cases v <;> rfl

theorem avoidsB_not_obj (F : JValue) (hF : F.isObjB = false) (k : String)
    (rest : List String) : avoidsB F (k :: rest) = false := by
  cases F <;> first
    | rfl
    | simp [JValue.isObjB] at hF

theorem getPath_obj_cons (fs : List (String × JValue)) (k : String) (rest : List String) :
    getPath (JValue.obj fs) (k :: rest) =
      match lookupField fs k with
      | some v => getPath v rest
      | none => none := rfl

theorem getPath_not_obj (v : JValue) (hv : v.isObjB = false) (k : String)
    (rest : List String) : getPath v (k :: rest) = none := by
  cases v <;> first
    | rfl
    | simp [JValue.isObjB] at hv

theorem avoidsB_getPath_none : ∀ (p : List String) (F : JValue),
    avoidsB F p = true → getPath F p = none := by
  intro p
  induction p with
  | nil => intro F h; simp [avoidsB] at h
  | cons k rest ih =>
    intro F h
    rcases jvalue_obj_cases F with ⟨Ff, rfl⟩ | hF
    · rcases hk : lookupField Ff k with _ | fv
      · simp [getPath_obj_cons, hk]
      · have hav : avoidsB fv rest = true := by simpa [avoidsB, hk] using h
        simp [getPath_obj_cons, hk, ih fv hav]
    · rw [avoidsB_not_obj F hF] at h
      exact Bool.noConfusion h

theorem getPath_merge2_of_leaf :
    ∀ (p : List String) (d u v : JValue),
      getPath u p = some v → v.isObjB = false → getPath (merge2 d u) p = some v := by
  intro p
  induction p with
  | nil =>
    intro d u v h hv
    rw [getPath_nil] at h
    injection h with h
    subst h
    rw [merge2_of_not_obj d u hv, getPath_nil]
  | cons k rest ih =>
    intro d u v h hv
    rcases jvalue_obj_cases u with ⟨ua, rfl⟩ | hu
    · rcases hlk : lookupField ua k with _ | uk
      · rw [getPath_obj_cons, hlk] at h
        exact Option.noConfusion h
      · rw [getPath_obj_cons, hlk] at h
        rcases jvalue_obj_cases d with ⟨da, rfl⟩ | hd
        · rw [merge2_obj_obj, getPath_obj_cons]
          rcases hld : lookupField da k with _ | dk
          · have hm : lookupField (merge2.mergeMap da ua) k = none := by
              rw [lookupField_mergeMap, hld]; rfl
            rw [lookupField_append_none _ _ _ hm]
            rw [lookupField_filter_key _ _ _ (fun v' => by simp [hld])]
            rw [hlk]
            exact h
          · have hm : lookupField (merge2.mergeMap da ua) k = some (merge2 dk uk) := by
              rw [lookupField_mergeMap, hld]
              simp [mergeEntry, hlk]
            rw [lookupField_append_some _ _ _ _ hm]
            exact ih dk uk v h hv
        · rw [merge2_of_not_obj_left d _ hd, getPath_obj_cons, hlk]
          exact h
    · rw [getPath_not_obj u hu] at h
      exact Option.noConfusion h

theorem getPath_merge2_avoids :
    ∀ (p : List String) (X F : JValue), avoidsB F p = true →
      getPath (merge2 X F) p = getPath X p := by
  intro p
  induction p with
  | nil => intro X F h; simp [avoidsB] at h
  | cons k rest ih =>
    intro X F h
    rcases jvalue_obj_cases F with ⟨Ff, rfl⟩ | hF
    · rcases jvalue_obj_cases X with ⟨Xf, rfl⟩ | hX
      · rw [merge2_obj_obj, getPath_obj_cons, getPath_obj_cons]
        rcases hF : lookupField Ff k with _ | fv
        · rcases hX : lookupField Xf k with _ | xv
          · have hm : lookupField (merge2.mergeMap Xf Ff) k = none := by
              rw [lookupField_mergeMap, hX]; rfl
            rw [lookupField_append_none _ _ _ hm, lookupField_filter_none _ _ _ hF]
          · have hm : lookupField (merge2.mergeMap Xf Ff) k = some xv := by
              rw [lookupField_mergeMap, hX]
              simp [mergeEntry, hF]
            rw [lookupField_append_some _ _ _ _ hm]
        · have hav : avoidsB fv rest = true := by simpa [avoidsB, hF] using h
          rcases hX : lookupField Xf k with _ | xv
          · have hm : lookupField (merge2.mergeMap Xf Ff) k = none := by
              rw [lookupField_mergeMap, hX]; rfl
            rw [lookupField_append_none _ _ _ hm]
            rw [lookupField_filter_key _ _ _ (fun v' => by simp [hX])]
            rw [hF]
            exact avoidsB_getPath_none rest fv hav
          · have hm : lookupField (merge2.mergeMap Xf Ff) k = some (merge2 xv fv) := by
              rw [lookupField_mergeMap, hX]
              simp [mergeEntry, hF]
            rw [lookupField_append_some _ _ _ _ hm]
            exact ih xv fv hav
      · rw [merge2_of_not_obj_left X _ hX, avoidsB_getPath_none _ _ h,
          getPath_not_obj X hX]
    · rw [avoidsB_not_obj F hF] at h
      exact Bool.noConfusion h

theorem getPath_merge2_forcedChart (X : JValue) (key : String)
    (hkey : lookupField forcedChartFields key = some (JValue.bool false)) :
    getPath (merge2 X (JValue.obj forcedChartFields)) [key] = some (JValue.bool false) := by
  rcases jvalue_obj_cases X with ⟨Xf, rfl⟩ | hX0
  · rw [merge2_obj_obj, getPath_obj_cons]
    rcases hX : lookupField Xf key with _ | xv
    · have hm : lookupField (merge2.mergeMap Xf forcedChartFields) key = none := by
        rw [lookupField_mergeMap, hX]; rfl
      rw [lookupField_append_none _ _ _ hm]
      rw [lookupField_filter_key _ _ _ (fun v' => by simp [hX])]
      rw [hkey]
      rfl
    · have hm : lookupField (merge2.mergeMap Xf forcedChartFields) key =
          some (merge2 xv (JValue.bool false)) := by
        rw [lookupField_mergeMap, hX]
        simp [mergeEntry, hkey]
      rw [lookupField_append_some _ _ _ _ hm, merge2_bool_false]
      rfl
  · rw [merge2_of_not_obj_left X _ hX0, getPath_obj_cons, hkey]
    rfl

theorem getPath_merge2_forced (X : JValue) (key : String)
    (hkey : lookupField forcedChartFields key = some (JValue.bool false)) :
    getPath (merge2 X forcedOptions) ["chart", key] = some (JValue.bool false) := by
  have hfc : lookupField [("chart", JValue.obj forcedChartFields)] "chart" =
      some (JValue.obj forcedChartFields) := rfl
  rcases jvalue_obj_cases X with ⟨Xf, rfl⟩ | hX0
  · rw [show forcedOptions = JValue.obj [("chart", JValue.obj forcedChartFields)] from rfl,
      merge2_obj_obj, getPath_obj_cons]
    rcases hX : lookupField Xf "chart" with _ | xc
    · have hm : lookupField
          (merge2.mergeMap Xf [("chart", JValue.obj forcedChartFields)]) "chart" = none := by
        rw [lookupField_mergeMap, hX]; rfl
      rw [lookupField_append_none _ _ _ hm]
      rw [lookupField_filter_key _ _ _ (fun v' => by simp [hX])]
      rw [hfc]
      show getPath (JValue.obj forcedChartFields) [key] = some (JValue.bool false)
      rw [getPath_obj_cons, hkey]
      rfl
    · have hm : lookupField
          (merge2.mergeMap Xf [("chart", JValue.obj forcedChartFields)]) "chart" =
          some (merge2 xc (JValue.obj forcedChartFields)) := by
        rw [lookupField_mergeMap, hX]
        simp [mergeEntry, hfc]
      rw [lookupField_append_some _ _ _ _ hm]
      exact getPath_merge2_forcedChart xc key hkey
  · rw [merge2_of_not_obj_left X _ hX0,
      show forcedOptions = JValue.obj [("chart", JValue.obj forcedChartFields)] from rfl,
      getPath_obj_cons, hfc]
    show getPath (JValue.obj forcedChartFields) [key] = some (JValue.bool false)
    rw [getPath_obj_cons, hkey]
    rfl

/-! ### The restore step and the forced layer -/

theorem getPath_restoreSeries_ne (fs : List (String × JValue)) (s : Option JValue)
    (k : String) (hk : k ≠ "series") (rest : List String) :
    getPath (restoreSeries (JValue.obj fs) s) (k :: rest) =
      getPath (JValue.obj fs) (k :: rest) := by
  cases s with
  | some sv =>
    show getPath (JValue.obj (setField fs "series" sv)) (k :: rest) = _
    rw [getPath_obj_cons, getPath_obj_cons, lookupField_setField_ne _ _ _ _ hk]
  | none =>
    show getPath (JValue.obj (removeField fs "series")) (k :: rest) = _
    rw [getPath_obj_cons, getPath_obj_cons, lookupField_removeField_ne _ _ _ hk]

theorem getPath_restoreSeries_series (fs : List (String × JValue)) (s : Option JValue)
    (rest : List String) :
    getPath (restoreSeries (JValue.obj fs) s) ("series" :: rest) =
      match s with
      | some sv => getPath sv rest
      | none => none := by
  cases s with
  | some sv =>
    show getPath (JValue.obj (setField fs "series" sv)) ("series" :: rest) = _
    rw [getPath_obj_cons, lookupField_setField_self]
  | none =>
    show getPath (JValue.obj (removeField fs "series")) ("series" :: rest) = _
    rw [getPath_obj_cons, lookupField_removeField_self]

theorem avoidsB_forcedOptions (p : List String)
    (h1 : overlapsB p ["chart", "inverted"] = false)
    (h2 : overlapsB p ["chart", "alignTicks"] = false) :
    avoidsB forcedOptions p = true := by
  cases p with
  | nil => exact absurd h1 (by decide)
  | cons k rest =>
    by_cases hk : "chart" = k
    · subst hk
      cases rest with
      | nil => exact absurd h1 (by decide)
      | cons k2 rest2 =>
        by_cases hk2 : "inverted" = k2
        · subst hk2
          exfalso
          have hpre : List.isPrefixOf ["chart", "inverted"]
              ("chart" :: "inverted" :: rest2) = true := by
            simp [List.isPrefixOf]
          simp [overlapsB, hpre] at h1
        · by_cases hk3 : "alignTicks" = k2
          · subst hk3
            exfalso
            have hpre : List.isPrefixOf ["chart", "alignTicks"]
                ("chart" :: "alignTicks" :: rest2) = true := by
              simp [List.isPrefixOf]
            simp [overlapsB, hpre] at h2
          · simp [avoidsB, forcedOptions, forcedChartFields, lookupField, hk2, hk3]
    · simp [avoidsB, forcedOptions, lookupField, hk]

/-! ### Claim theorems on the options pipeline -/

/-- C1: `mapChart` composes its options by a three-way deep merge of map
defaults, user options and forced overrides: in the returned chart's
options, `chart.inverted` and `chart.alignTicks` are `false` whatever
the user passed, and every user leaf setting whose path does not overlap
a forced-override path survives the merge unchanged, winning over the
map defaults. -/
theorem mapChart_three_way_merge (dco u : List (String × JValue)) :
    getPath (mapChart dco u).options ["chart", "inverted"] = some (JValue.bool false) ∧
    getPath (mapChart dco u).options ["chart", "alignTicks"] = some (JValue.bool false) ∧
    ∀ (p : List String) (v : JValue),
      getPath (JValue.obj u) p = some v → v.isObjB = false →
      overlapsB p ["chart", "inverted"] = false →
      overlapsB p ["chart", "alignTicks"] = false →
      getPath (mapChart dco u).options p = some v := by
  have hopts : (mapChart dco u).options =
      restoreSeries
        (merge2 (merge2 (mapDefaults dco) (JValue.obj (setField u "series" JValue.null)))
          forcedOptions)
        (lookupField u "series") := rfl
  obtain ⟨gs, hgs⟩ :=
    merge2_obj_right
      (merge2 (mapDefaults dco) (JValue.obj (setField u "series" JValue.null)))
      [("chart", JValue.obj forcedChartFields)]
  have hgs' :
      merge2 (merge2 (mapDefaults dco) (JValue.obj (setField u "series" JValue.null)))
        forcedOptions = JValue.obj gs := hgs
  refine ⟨?_, ?_, ?_⟩
  · rw [hopts, hgs',
      getPath_restoreSeries_ne gs (lookupField u "series") "chart" (by decide) ["inverted"],
      ← hgs']
    exact getPath_merge2_forced _ "inverted" rfl
  · rw [hopts, hgs',
      getPath_restoreSeries_ne gs (lookupField u "series") "chart" (by decide) ["alignTicks"],
      ← hgs']
    exact getPath_merge2_forced _ "alignTicks" rfl
  · intro p v hp hv h1 h2
    cases p with
    | nil =>
      rw [getPath_nil] at hp
      injection hp with hp
      subst hp
      simp [JValue.isObjB] at hv
    | cons k rest =>
      by_cases hk : k = "series"
      · subst hk
        rw [getPath_obj_cons] at hp
        rcases hs : lookupField u "series" with _ | sv
        · rw [hs] at hp
          exact Option.noConfusion hp
        · rw [hs] at hp
          rw [hopts, hgs', getPath_restoreSeries_series, hs]
          exact hp
      · rw [hopts, hgs',
          getPath_restoreSeries_ne gs (lookupField u "series") k hk rest, ← hgs',
          getPath_merge2_avoids (k :: rest) _ forcedOptions
            (avoidsB_forcedOptions _ h1 h2)]
        apply getPath_merge2_of_leaf _ _ _ _ _ hv
        rw [getPath_obj_cons, lookupField_setField_ne _ _ _ _ hk]
        rw [getPath_obj_cons] at hp
        exact hp

/-- Witness for C1 at a concrete input: the user's `title` setting does
not overlap a forced path and survives into the chart's options. -/
theorem mapChart_three_way_merge_witness :
    getPath (JValue.obj [("title", JValue.str "T")]) ["title"] =
      some (JValue.str "T") ∧
    getPath (mapChart [] [("title", JValue.str "T")]).options ["title"] =
      some (JValue.str "T") :=
  ⟨rfl,
    (mapChart_three_way_merge [] [("title", JValue.str "T")]).2.2 ["title"]
      (JValue.str "T") rfl rfl rfl rfl⟩

/-- C10: the `series` options are excluded from the deep merge: the
merged options carry exactly the user's `series` value, and after the
call the user's options object is unchanged. -/
theorem mapChart_series_not_merged (dco u : List (String × JValue)) :
    getPath (mapChartOptions dco u) ["series"] = lookupField u "series" ∧
    mapChartUserAfter u = u := by
  have hopts : mapChartOptions dco u =
      restoreSeries
        (merge2 (merge2 (mapDefaults dco) (JValue.obj (setField u "series" JValue.null)))
          forcedOptions)
        (lookupField u "series") := rfl
  obtain ⟨gs, hgs⟩ :=
    merge2_obj_right
      (merge2 (mapDefaults dco) (JValue.obj (setField u "series" JValue.null)))
      [("chart", JValue.obj forcedChartFields)]
  have hgs' :
      merge2 (merge2 (mapDefaults dco) (JValue.obj (setField u "series" JValue.null)))
        forcedOptions = JValue.obj gs := hgs
  constructor
  · rw [hopts, hgs', getPath_restoreSeries_series]
    rcases hs : lookupField u "series" with _ | sv
    · rfl
    · exact getPath_nil sv
  · unfold mapChartUserAfter
    rcases hs : lookupField u "series" with _ | sv
    · show removeField (setField u "series" JValue.null) "series" = u
      rw [setField_of_lookup_none _ _ _ hs]
      rw [show removeField (u ++ [("series", JValue.null)]) "series" =
          removeField u "series" ++ removeField [("series", JValue.null)] "series" from by
        simp [removeField, List.filter_append]]
      rw [removeField_of_lookup_none _ _ hs]
      simp [removeField, List.filter]
    · show setField (setField u "series" JValue.null) "series" sv = u
      rw [setField_setField, setField_lookup_self _ _ _ hs]

/-- C7: the module initialises the `Highcharts.maps` registry to an
empty object; none of its operations (`splitPath`, the button symbol
callbacks, `mapChart`) touches the registry; the external loader only
ever adds or replaces its own key, evicting nothing. -/
theorem maps_registry_frame :
    mapsInit = [] ∧
    (∀ (st : ModuleState) (s : List Char), (splitPathOp st s).1 = st) ∧
    (∀ (st : ModuleState) (x y w h : ℚ) (o : Option SymbolOptionsObject),
      (topbuttonOp st x y w h o).1 = st) ∧
    (∀ (st : ModuleState) (x y w h : ℚ) (o : Option SymbolOptionsObject),
      (bottombuttonOp st x y w h o).1 = st) ∧
    (∀ (st : ModuleState) (dco u : List (String × JValue)),
      (mapChartOp st dco u).1 = st) ∧
    (∀ (st : ModuleState) (k : String) (d : JValue),
      lookupField (loadMap st k d).maps k = some d) ∧
    (∀ (st : ModuleState) (k : String) (d : JValue) (k' : String), k' ≠ k →
      lookupField (loadMap st k d).maps k' = lookupField st.maps k') :=
  ⟨rfl, fun _ _ => rfl, fun _ _ _ _ _ _ => rfl, fun _ _ _ _ _ _ => rfl,
    fun _ _ _ => rfl, fun st k d => lookupField_setField_self st.maps k d,
    fun st k d k' h => lookupField_setField_ne st.maps k k' d h⟩

/-- Witness for C7 at a concrete input: loading key `b` leaves the
entry at key `a` untouched. -/
theorem maps_registry_frame_witness :
    (("a" : String) ≠ "b") ∧
    lookupField
        (loadMap (ModuleState.mk [("a", JValue.null)] JValue.null) "b"
          (JValue.bool true)).maps "a" =
      lookupField (ModuleState.mk [("a", JValue.null)] JValue.null : ModuleState).maps "a" :=
  ⟨by decide,
    maps_registry_frame.2.2.2.2.2.2 (ModuleState.mk [("a", JValue.null)] JValue.null)
      "b" (JValue.bool true) "a" (by decide)⟩

/-! ### Claim theorems on the geometry -/

/-- C6: `selectiveRoundedRect` is pure and stateless: threaded through
the module state it leaves the state unchanged, and its output does not
depend on the state, so two calls with equal arguments return equal
paths. -/
theorem selectiveRoundedRect_stateless :
    (∀ (st : ModuleState) (x y w h r1 r2 r3 r4 : ℚ),
      (selectiveRoundedRectOp st x y w h r1 r2 r3 r4).1 = st) ∧
    (∀ (st st' : ModuleState) (x y w h r1 r2 r3 r4 : ℚ),
      (selectiveRoundedRectOp st x y w h r1 r2 r3 r4).2 =
        (selectiveRoundedRectOp st' x y w h r1 r2 r3 r4).2) :=
  ⟨fun _ _ _ _ _ _ _ _ _ => rfl, fun _ _ _ _ _ _ _ _ _ _ => rfl⟩

/-- C3: `selectiveRoundedRect` returns the clockwise command sequence
`M, L, C, L, C, L, C, L, C, Z` starting at the top-left radius point:
the four `L` commands run along top, right, bottom and left edges and
the four `C` corner curves end at the start of the following edge. -/
theorem selectiveRoundedRect_structure (x y w h r1 r2 r3 r4 : ℚ) :
    (selectiveRoundedRect x y w h r1 r2 r3 r4).map segLetter =
      ['M', 'L', 'C', 'L', 'C', 'L', 'C', 'L', 'C', 'Z'] ∧
    (selectiveRoundedRect x y w h r1 r2 r3 r4).head? = some (Seg.M (x + r1) y) ∧
    (selectiveRoundedRect x y w h r1 r2 r3 r4)[1]? = some (Seg.L (x + w - r2) y) ∧
    ((selectiveRoundedRect x y w h r1 r2 r3 r4)[2]?.bind segEnd) = some (x + w, y + r2) ∧
    (selectiveRoundedRect x y w h r1 r2 r3 r4)[3]? = some (Seg.L (x + w) (y + h - r3)) ∧
    ((selectiveRoundedRect x y w h r1 r2 r3 r4)[4]?.bind segEnd) =
      some (x + w - r3, y + h) ∧
    (selectiveRoundedRect x y w h r1 r2 r3 r4)[5]? = some (Seg.L (x + r4) (y + h)) ∧
    ((selectiveRoundedRect x y w h r1 r2 r3 r4)[6]?.bind segEnd) =
      some (x, y + h - r4) ∧
    (selectiveRoundedRect x y w h r1 r2 r3 r4)[7]? = some (Seg.L x (y + r1)) ∧
    ((selectiveRoundedRect x y w h r1 r2 r3 r4)[8]?.bind segEnd) = some (x + r1, y) ∧
    (selectiveRoundedRect x y w h r1 r2 r3 r4)[9]? = some Seg.Z :=
  ⟨rfl, rfl, rfl, rfl, rfl, rfl, rfl, rfl, rfl, rfl, rfl⟩

/-- C4: with all four radii zero the generator traces the plain
rectangle with corners `(x, y)`, `(x + w, y)`, `(x + w, y + h)` and
`(x, y + h)`; every corner curve degenerates, all its control points
equal to the corner. -/
theorem selectiveRoundedRect_zero_radii (x y w h : ℚ) :
    selectiveRoundedRect x y w h 0 0 0 0 =
      [Seg.M x y, Seg.L (x + w) y, Seg.C (x + w) y (x + w) y (x + w) y,
       Seg.L (x + w) (y + h),
       Seg.C (x + w) (y + h) (x + w) (y + h) (x + w) (y + h),
       Seg.L x (y + h), Seg.C x (y + h) x (y + h) x (y + h),
       Seg.L x y, Seg.C x y x y x y, Seg.Z] := by
  simp [selectiveRoundedRect]

/-- C9: the path is geometrically closed: the final corner curve (the
last `C`, at index 8, just before the closing `Z`) ends exactly at the
initial `M` point `(x + rTopLeft, y)`. -/
theorem selectiveRoundedRect_closed (x y w h r1 r2 r3 r4 : ℚ) :
    ((selectiveRoundedRect x y w h r1 r2 r3 r4)[8]?.bind segEnd) = some (x + r1, y) ∧
    (selectiveRoundedRect x y w h r1 r2 r3 r4).head? = some (Seg.M (x + r1) y) ∧
    ((selectiveRoundedRect x y w h r1 r2 r3 r4)[8]?.map segLetter) = some 'C' ∧
    (selectiveRoundedRect x y w h r1 r2 r3 r4)[9]? = some Seg.Z ∧
    (selectiveRoundedRect x y w h r1 r2 r3 r4).length = 10 :=
  ⟨rfl, rfl, rfl, rfl, rfl⟩

/-- C8: the `topbutton` symbol is `selectiveRoundedRect` on the box
shifted by `(-1, -1)` with the two top radii set to the option's `r`
and the bottom radii zero, `bottombutton` the same with the roles of
top and bottom swapped; a missing options object or `r` defaults the
radius to `0`. -/
theorem button_symbols_spec (x y w h r : ℚ) :
    topbutton x y w h none = selectiveRoundedRect (x - 1) (y - 1) w h 0 0 0 0 ∧
    topbutton x y w h (some (SymbolOptionsObject.mk none)) =
      selectiveRoundedRect (x - 1) (y - 1) w h 0 0 0 0 ∧
    topbutton x y w h (some (SymbolOptionsObject.mk (some r))) =
      selectiveRoundedRect (x - 1) (y - 1) w h r r 0 0 ∧
    bottombutton x y w h none = selectiveRoundedRect (x - 1) (y - 1) w h 0 0 0 0 ∧
    bottombutton x y w h (some (SymbolOptionsObject.mk none)) =
      selectiveRoundedRect (x - 1) (y - 1) w h 0 0 0 0 ∧
    bottombutton x y w h (some (SymbolOptionsObject.mk (some r))) =
      selectiveRoundedRect (x - 1) (y - 1) w h 0 0 r r :=
  ⟨rfl, rfl, rfl, rfl, rfl, rfl⟩

/-! ### Character classes -/

theorem isDigitC_classes (c : Char) (h : isDigitC c = true) :
    matchesAZaz c = false ∧ isSplitDelim c = false ∧ isJsSpace c = false ∧
      isAsciiLetter c = false := by
  simp only [isDigitC, matchesAZaz, isSplitDelim, isJsSpace, isAsciiLetter,
    Bool.or_eq_true, Bool.and_eq_true, decide_eq_true_eq, Bool.or_eq_false_iff,
    Bool.and_eq_false_iff, decide_eq_false_iff_not] at h ⊢
  omega

theorem isDigitC_ne_dash (c : Char) (h : isDigitC c = true) : ¬ (c = '-') := by
  intro hc
  subst hc
  exact absurd h (by decide)

theorem isDigitC_ne_plus (c : Char) (h : isDigitC c = true) : ¬ (c = '+') := by
  intro hc
  subst hc
  exact absurd h (by decide)

theorem asciiLetter_matches (c : Char) (h : isAsciiLetter c = true) :
    matchesAZaz c = true := by
  simp only [isAsciiLetter, matchesAZaz, Bool.or_eq_true, Bool.and_eq_true,
    decide_eq_true_eq] at h ⊢
  omega

theorem asciiLetter_not_space (c : Char) (h : isAsciiLetter c = true) :
    isJsSpace c = false := by
  simp only [isAsciiLetter, isJsSpace, Bool.or_eq_true, Bool.and_eq_true,
    Bool.or_eq_false_iff, decide_eq_true_eq, decide_eq_false_iff_not] at h ⊢
  omega

theorem asciiLetter_not_delim (c : Char) (h : isAsciiLetter c = true) :
    isSplitDelim c = false := by
  simp only [isAsciiLetter, isSplitDelim, Bool.or_eq_true, Bool.and_eq_true,
    Bool.or_eq_false_iff, decide_eq_true_eq, decide_eq_false_iff_not] at h ⊢
  omega

theorem not_matches_not_letter (c : Char) (h : matchesAZaz c = false) :
    isAsciiLetter c = false := by
  rcases hl : isAsciiLetter c with _ | _
  · rfl
  · rw [asciiLetter_matches c hl] at h
    exact Bool.noConfusion h

theorem goodNumChar_spec (c : Char) (h : goodNumChar c = true) :
    matchesAZaz c = false ∧ isSplitDelim c = false ∧ isJsSpace c = false ∧
      isAsciiLetter c = false := by
  simp only [goodNumChar, Bool.and_eq_true, Bool.not_eq_true'] at h
  exact ⟨h.1.1, h.1.2, h.2, not_matches_not_letter c h.1.1⟩

/-! ### Decimal digit strings -/

theorem natDigitsRev_all_lt : ∀ (fuel n : ℕ), ∀ d ∈ natDigitsRev fuel n, d < 10 := by
  intro fuel
  induction fuel with
  | zero => intro n d hd; simp [natDigitsRev] at hd
  | succ fuel ih =>
    intro n d hd
    by_cases h0 : n = 0
    · simp [natDigitsRev, h0] at hd
    · rw [natDigitsRev, if_neg h0] at hd
      rcases List.mem_cons.1 hd with rfl | hd'
      · exact Nat.mod_lt _ (by omega)
      · exact ih _ d hd'

theorem natDigitsRev_foldl : ∀ (fuel n : ℕ), n < 10 ^ fuel → ∀ (a : ℕ),
    List.foldl (fun a d => 10 * a + d) a (natDigitsRev fuel n).reverse =
      a * 10 ^ (natDigitsRev fuel n).length + n := by
  intro fuel
  induction fuel with
  | zero =>
    intro n hn a
    interval_cases n
    simp [natDigitsRev]
  | succ fuel ih =>
    intro n hn a
    by_cases h0 : n = 0
    · simp [natDigitsRev, h0]
    · rw [natDigitsRev, if_neg h0]
      have hdiv : n / 10 < 10 ^ fuel := by
        rw [Nat.div_lt_iff_lt_mul (by omega)]
        calc n < 10 ^ (fuel + 1) := hn
        _ = 10 ^ fuel * 10 := by rw [pow_succ]
      rw [List.reverse_cons, List.foldl_append, ih (n / 10) hdiv a]
      simp only [List.foldl_cons, List.foldl_nil, List.length_cons]
      have hmod : 10 * (n / 10) + n % 10 = n := Nat.div_add_mod n 10
      rw [pow_succ]
      ring_nf
      omega

theorem digitVal_digitChar (d : ℕ) (h : d < 10) : digitVal (digitChar d) = d := by
  interval_cases d <;> rfl

theorem isDigitC_digitChar (d : ℕ) (h : d < 10) : isDigitC (digitChar d) = true := by
  interval_cases d <;> rfl

theorem foldl_digitChar (l : List ℕ) (hl : ∀ d ∈ l, d < 10) : ∀ (a : ℕ),
    List.foldl (fun a c => 10 * a + digitVal c) a (l.map digitChar) =
      List.foldl (fun a d => 10 * a + d) a l := by
  induction l with
  | nil => intro a; rfl
  | cons d rest ih =>
    intro a
    simp only [List.map_cons, List.foldl_cons]
    rw [digitVal_digitChar d (hl d (by simp))]
    exact ih (fun d' hd' => hl d' (by simp [hd'])) _

theorem digitsToNat_natDigits (n : ℕ) : digitsToNat (natDigits n) = n := by
  by_cases h0 : n = 0
  · subst h0
    rfl
  · rw [natDigits, if_neg h0, digitsToNat, ← List.map_reverse,
      foldl_digitChar _ (fun d hd => natDigitsRev_all_lt n n d (by simpa using hd)) 0,
      natDigitsRev_foldl n n (Nat.lt_pow_self (by omega) n) 0]
    simp

theorem natDigits_ne_nil (n : ℕ) : natDigits n ≠ [] := by
  by_cases h0 : n = 0
  · subst h0
    simp [natDigits]
  · rw [natDigits, if_neg h0]
    intro hcon
    rw [List.reverse_eq_nil_iff, List.map_eq_nil_iff] at hcon
    have := natDigitsRev_foldl n n (Nat.lt_pow_self (by omega) n) 0
    rw [hcon] at this
    simp at this
    exact h0 this.symm

theorem natDigits_all_digit (n : ℕ) : ∀ c ∈ natDigits n, isDigitC c = true := by
  intro c hc
  by_cases h0 : n = 0
  · subst h0
    simp [natDigits] at hc
    subst hc
    rfl
  · rw [natDigits, if_neg h0] at hc
    rw [List.mem_reverse, List.mem_map] at hc
    obtain ⟨d, hd, rfl⟩ := hc
    exact isDigitC_digitChar d (natDigitsRev_all_lt n n d hd)

theorem natDigitsRev_length_le : ∀ (fuel n k : ℕ), n < 10 ^ k →
    (natDigitsRev fuel n).length ≤ k := by
  intro fuel
  induction fuel with
  | zero => intro n k _; simp [natDigitsRev]
  | succ fuel ih =>
    intro n k hn
    by_cases h0 : n = 0
    · simp [natDigitsRev, h0]
    · rw [natDigitsRev, if_neg h0]
      cases k with
      | zero => omega
      | succ k' =>
        have hdiv : n / 10 < 10 ^ k' := by
          rw [Nat.div_lt_iff_lt_mul (by omega)]
          calc n < 10 ^ (k' + 1) := hn
          _ = 10 ^ k' * 10 := by rw [pow_succ]
        simpa using Nat.succ_le_succ (ih (n / 10) k' hdiv)

theorem natDigits_length_le (n k : ℕ) (hk : 1 ≤ k) (hn : n < 10 ^ k) :
    (natDigits n).length ≤ k := by
  by_cases h0 : n = 0
  · simp [natDigits, h0, hk]
  · rw [natDigits, if_neg h0]
    simpa using natDigitsRev_length_le n n k hn

theorem digitsToNat_pad (j : ℕ) (l : List Char) :
    digitsToNat (List.replicate j '0' ++ l) = digitsToNat l := by
  induction j with
  | zero => rfl
  | succ j ih =>
    rw [digitsToNat, List.replicate_succ, List.cons_append, List.foldl_cons]
    simpa [digitsToNat, digitVal] using ih

theorem padDigits_spec (k m : ℕ) (hk : 1 ≤ k) (hm : m < 10 ^ k) :
    digitsToNat (padDigits k m) = m ∧ (padDigits k m).length = k ∧
      ∀ c ∈ padDigits k m, isDigitC c = true := by
  refine ⟨?_, ?_, ?_⟩
  · rw [padDigits, digitsToNat_pad, digitsToNat_natDigits]
  · rw [padDigits, List.length_append, List.length_replicate]
    have := natDigits_length_le m k hk hm
    omega
  · intro c hc
    rw [padDigits, List.mem_append] at hc
    rcases hc with hc | hc
    · rw [List.eq_of_mem_replicate hc]
      rfl
    · exact natDigits_all_digit m c hc

/-! ### takeWhile and dropWhile helpers -/

theorem dropWhile_cons_neg {p : Char → Bool} (c : Char) (cs : List Char)
    (h : p c = false) : List.dropWhile p (c :: cs) = c :: cs := by
  simp [List.dropWhile_cons, h]

theorem dropWhile_append_all {p : Char → Bool} (a b : List Char)
    (ha : ∀ c ∈ a, p c = true) : List.dropWhile p (a ++ b) = List.dropWhile p b := by
  induction a with
  | nil => rfl
  | cons c cs ih =>
    rw [List.cons_append, List.dropWhile_cons, ha c (by simp)]
    exact ih (fun c' hc' => ha c' (by simp [hc']))

theorem takeWhile_append_stop {p : Char → Bool} (xs : List Char) (y : Char)
    (ys : List Char) (hxs : ∀ c ∈ xs, p c = true) (hy : p y = false) :
    (xs ++ y :: ys).takeWhile p = xs ∧ (xs ++ y :: ys).dropWhile p = y :: ys := by
  induction xs with
  | nil => simp [List.takeWhile_cons, List.dropWhile_cons, hy]
  | cons c cs ih =>
    have hc : p c = true := hxs c (by simp)
    have := ih (fun c' hc' => hxs c' (by simp [hc']))
    simp [List.takeWhile_cons, List.dropWhile_cons, hc, this.1, this.2]

theorem takeWhile_all {p : Char → Bool} (xs : List Char)
    (hxs : ∀ c ∈ xs, p c = true) : xs.takeWhile p = xs := by
  induction xs with
  | nil => rfl
  | cons c cs ih =>
    rw [List.takeWhile_cons, hxs c (by simp)]
    simp [ih (fun c' hc' => hxs c' (by simp [hc']))]

theorem parseFloatJs_concat (neg : Bool) (ip fp : List Char)
    (hip : ∀ c ∈ ip, isDigitC c = true) (hfp : ∀ c ∈ fp, isDigitC c = true)
    (hne : ip ≠ []) :
    parseFloatJs ((if neg then ['-'] else []) ++ ip ++ '.' :: fp) =
      some ((if neg then (-1 : ℚ) else 1) *
        ((digitsToNat ip : ℚ) + (digitsToNat fp : ℚ) / (10 : ℚ) ^ fp.length)) := by
  obtain ⟨c, cs, rfl⟩ := List.exists_cons_of_ne_nil hne
  have hc : isDigitC c = true := hip c (by simp)
  have hdot : isDigitC '.' = false := by decide
  have hfrac : List.takeWhile isDigitC fp = fp := takeWhile_all fp hfp
  have hspace : isJsSpace c = false := (isDigitC_classes c hc).2.2.1
  have hdash : ¬ (c = '-') := isDigitC_ne_dash c hc
  have hplus : ¬ (c = '+') := isDigitC_ne_plus c hc
  have h1 := (takeWhile_append_stop (p := isDigitC) (c :: cs) '.' fp hip hdot).1
  have h2 := (takeWhile_append_stop (p := isDigitC) (c :: cs) '.' fp hip hdot).2
  cases neg with
  | false =>
    have h1' := h1
    have h2' := h2
    rw [List.cons_append] at h1' h2'
    simp only [parseFloatJs, Bool.false_eq_true, if_false, List.nil_append,
      List.cons_append]
    rw [dropWhile_cons_neg c (cs ++ '.' :: fp) hspace]
    simp only [decide_eq_false hdash, decide_eq_false hplus, Bool.or_self,
      Bool.false_eq_true, if_false, if_neg hdash, h1', h2', hfrac,
      List.isEmpty_cons, Bool.false_and]
  | true =>
    have hdashspace : isJsSpace '-' = false := by decide
    have h1' := h1
    have h2' := h2
    rw [List.cons_append] at h1' h2'
    simp only [parseFloatJs, if_true, List.nil_append, List.cons_append]
    rw [dropWhile_cons_neg '-' (c :: (cs ++ '.' :: fp)) hdashspace]
    simp [h1', h2', hfrac]
theorem dvd_ten_pow_self (e L : ℕ) (h : e ∣ 10 ^ L) : e ∣ 10 ^ e := by
  have h2 : (10 : ℕ) ^ L = 2 ^ L * 5 ^ L := by
    rw [← Nat.mul_pow]
  rw [h2] at h
  obtain ⟨e1, e2, h1, h2', rfl⟩ := Nat.dvd_mul.1 h
  obtain ⟨a, ha, rfl⟩ := (Nat.dvd_prime_pow Nat.prime_two).1 h1
  obtain ⟨b, hb, rfl⟩ := (Nat.dvd_prime_pow (by norm_num : Nat.Prime 5)).1 h2'
  have hae : a ≤ 2 ^ a * 5 ^ b := by
    have h3 : a < 2 ^ a := Nat.lt_two_pow a
    have h4 : 1 ≤ 5 ^ b := Nat.one_le_pow b 5 (by norm_num)
    calc a ≤ 2 ^ a := h3.le
    _ = 2 ^ a * 1 := (mul_one _).symm
    _ ≤ 2 ^ a * 5 ^ b := Nat.mul_le_mul_left _ h4
  have hbe : b ≤ 2 ^ a * 5 ^ b := by
    have h3 : b < 5 ^ b := Nat.lt_pow_self (by norm_num) b
    have h4 : 1 ≤ 2 ^ a := Nat.one_le_pow a 2 (by norm_num)
    calc b ≤ 5 ^ b := h3.le
    _ = 1 * 5 ^ b := (one_mul _).symm
    _ ≤ 2 ^ a * 5 ^ b := Nat.mul_le_mul_right _ h4
  have h5 : (10 : ℕ) ^ (2 ^ a * 5 ^ b) = 2 ^ (2 ^ a * 5 ^ b) * 5 ^ (2 ^ a * 5 ^ b) := by
    rw [← Nat.mul_pow]
  rw [h5]
  exact mul_dvd_mul (pow_dvd_pow 2 hae) (pow_dvd_pow 5 hbe)

theorem den_dvd_of_decimal (sg : ℚ) (hsg : sg = 1 ∨ sg = -1) (A B L : ℕ) :
    (sg * ((A : ℚ) + (B : ℚ) / (10 : ℚ) ^ L)).den ∣
      10 ^ (sg * ((A : ℚ) + (B : ℚ) / (10 : ℚ) ^ L)).den := by
  apply dvd_ten_pow_self _ L
  have hrepr : ∀ (z : ℤ), sg * ((A : ℚ) + (B : ℚ) / (10 : ℚ) ^ L) = (z : ℚ) / ((10 ^ L : ℤ) : ℚ) →
      (sg * ((A : ℚ) + (B : ℚ) / (10 : ℚ) ^ L)).den ∣ 10 ^ L := by
    intro z hz
    rw [hz]
    have hdd : ((Rat.divInt z ((10 : ℤ) ^ L)).den : ℤ) ∣ (10 : ℤ) ^ L := Rat.den_dvd z _
    rw [Rat.divInt_eq_div] at hdd
    exact_mod_cast hdd
  have h10 : ((10 : ℚ) ^ L) ≠ 0 := by positivity
  rcases hsg with rfl | rfl
  · refine hrepr ((A : ℤ) * 10 ^ L + B) ?_
    push_cast
    field_simp
  · refine hrepr (-((A : ℤ) * 10 ^ L + B)) ?_
    push_cast
    field_simp

theorem parseFloatJs_den_dvd (s : List Char) (q : ℚ) (h : parseFloatJs s = some q) :
    q.den ∣ 10 ^ q.den := by
  rw [parseFloatJs] at h
  split at h
  · exact Option.noConfusion h
  · injection h with h
    subst h
    apply den_dvd_of_decimal
    rcases List.dropWhile isJsSpace s with _ | ⟨c, r⟩
    · exact Or.inl rfl
    · dsimp only
      by_cases hc : c = '-'
      · rw [if_pos hc]
        exact Or.inr rfl
      · rw [if_neg hc]
        exact Or.inl rfl

theorem parseFloatJs_renderNum (q : ℚ) (hq : q.den ∣ 10 ^ q.den) :
    parseFloatJs (renderNum q) = some q := by
  have hd1 : 1 ≤ q.den := q.den_pos
  have hpow0 : 0 < 10 ^ q.den := pow_pos (by norm_num) _
  have hF : (q.num.natAbs * 10 ^ q.den / q.den) % 10 ^ q.den < 10 ^ q.den :=
    Nat.mod_lt _ hpow0
  obtain ⟨hpv, hpl, hpd⟩ :=
    padDigits_spec q.den ((q.num.natAbs * 10 ^ q.den / q.den) % 10 ^ q.den) hd1 hF
  have hm_dvd : q.den ∣ q.num.natAbs * 10 ^ q.den := Dvd.dvd.mul_left hq _
  have hden0 : ((q.den : ℚ)) ≠ 0 := by exact_mod_cast q.den_pos.ne'
  have hNat : q.num.natAbs * 10 ^ q.den / q.den / 10 ^ q.den * 10 ^ q.den +
      q.num.natAbs * 10 ^ q.den / q.den % 10 ^ q.den =
      q.num.natAbs * 10 ^ q.den / q.den := by
    have h' := Nat.div_add_mod (q.num.natAbs * 10 ^ q.den / q.den) (10 ^ q.den)
    rw [Nat.mul_comm]
    exact h'
  have hIF :
      ((q.num.natAbs * 10 ^ q.den / q.den / 10 ^ q.den : ℕ) : ℚ) +
        ((q.num.natAbs * 10 ^ q.den / q.den % 10 ^ q.den : ℕ) : ℚ) / (10 : ℚ) ^ q.den =
        ((q.num.natAbs * 10 ^ q.den / q.den : ℕ) : ℚ) / (10 : ℚ) ^ q.den := by
    have h10 : ((10 : ℚ) ^ q.den) ≠ 0 := by positivity
    rw [eq_div_iff h10, add_mul, div_mul_cancel₀ _ h10]
    exact_mod_cast hNat
  have hmcast : ((q.num.natAbs * 10 ^ q.den / q.den : ℕ) : ℚ) =
      (q.num.natAbs : ℚ) * 10 ^ q.den / q.den := by
    rw [Nat.cast_div hm_dvd hden0]
    push_cast
    ring
  have hval : ((q.num.natAbs * 10 ^ q.den / q.den : ℕ) : ℚ) / (10 : ℚ) ^ q.den =
      (q.num.natAbs : ℚ) / q.den := by
    rw [hmcast]
    have h10 : ((10 : ℚ) ^ q.den) ≠ 0 := by positivity
    field_simp
    ring
  by_cases hneg : q.num < 0
  · have key := parseFloatJs_concat true
      (natDigits (q.num.natAbs * 10 ^ q.den / q.den / 10 ^ q.den))
      (padDigits q.den (q.num.natAbs * 10 ^ q.den / q.den % 10 ^ q.den))
      (natDigits_all_digit _) hpd (natDigits_ne_nil _)
    simp only [if_true] at key
    have hrn : renderNum q =
        ['-'] ++ natDigits (q.num.natAbs * 10 ^ q.den / q.den / 10 ^ q.den) ++
          '.' :: padDigits q.den (q.num.natAbs * 10 ^ q.den / q.den % 10 ^ q.den) := by
      simp only [renderNum]
      rw [if_pos hneg]
    rw [hrn, key]
    congr 1
    rw [digitsToNat_natDigits, hpv, hpl, hIF, hval]
    have hn : ((q.num.natAbs : ℚ)) = -(q.num : ℚ) := by
      rw [Int.cast_natAbs, abs_of_neg hneg]
      push_cast
      ring
    rw [hn]
    conv_rhs => rw [← Rat.num_div_den q]
    ring
  · have key := parseFloatJs_concat false
      (natDigits (q.num.natAbs * 10 ^ q.den / q.den / 10 ^ q.den))
      (padDigits q.den (q.num.natAbs * 10 ^ q.den / q.den % 10 ^ q.den))
      (natDigits_all_digit _) hpd (natDigits_ne_nil _)
    simp only [Bool.false_eq_true, if_false] at key
    have hrn : renderNum q =
        ([] : List Char) ++ natDigits (q.num.natAbs * 10 ^ q.den / q.den / 10 ^ q.den) ++
          '.' :: padDigits q.den (q.num.natAbs * 10 ^ q.den / q.den % 10 ^ q.den) := by
      simp only [renderNum]
      rw [if_neg hneg]
    rw [hrn, key]
    congr 1
    rw [digitsToNat_natDigits, hpv, hpl, hIF, hval]
    have hn : ((q.num.natAbs : ℚ)) = (q.num : ℚ) := by
      rw [Int.cast_natAbs, abs_of_nonneg (not_lt.1 hneg)]
    rw [hn]
    conv_rhs => rw [← Rat.num_div_den q]
    ring

/-! ### The letter-spacing substitution on well-formed paths -/

theorem spaceOutLetters_append (a b : List Char) :
    spaceOutLetters (a ++ b) = spaceOutLetters a ++ spaceOutLetters b := by
  simp [spaceOutLetters]

theorem spaceOutLetters_cmd (c : Char) (h : isAsciiLetter c = true) :
    spaceOutLetters [c] = [' ', c, ' '] := by
  simp [spaceOutLetters, h]

theorem spaceOutLetters_space : spaceOutLetters [' '] = [' '] := rfl

theorem spaceOutLetters_no_letter : ∀ (s : List Char),
    (∀ c ∈ s, isAsciiLetter c = false) → spaceOutLetters s = s := by
  intro s
  induction s with
  | nil => intro _; rfl
  | cons c cs ih =>
    intro h
    have hc := h c (by simp)
    have ih' := ih (fun c' hc' => h c' (by simp [hc']))
    simp only [spaceOutLetters, List.map_cons, List.flatten_cons, hc, if_false] at ih' ⊢
    simp [ih']

theorem goodTok_num_parts (s : List Char) (h : goodTok (RawTok.num s) = true) :
    s ≠ [] ∧ (∀ c ∈ s, goodNumChar c = true) ∧ (parseFloatJs s).isSome = true := by
  simp only [goodTok, Bool.and_eq_true, Bool.not_eq_true'] at h
  refine ⟨by simpa [List.isEmpty_iff] using h.1.1, fun c hc => ?_, h.2⟩
  exact (List.all_eq_true.1 h.1.2) c hc

theorem goodTok_core_ne (t : RawTok) (h : goodTok t = true) : renderRaw t ≠ [] := by
  cases t with
  | cmd c => simp [renderRaw]
  | num s => simpa [renderRaw] using (goodTok_num_parts s h).1

theorem goodTok_core_chars (t : RawTok) (h : goodTok t = true) :
    ∀ c ∈ renderRaw t, isJsSpace c = false ∧ isSplitDelim c = false := by
  cases t with
  | cmd c0 =>
    intro c hc
    simp only [renderRaw, List.mem_singleton] at hc
    subst hc
    simp only [goodTok] at h
    exact ⟨asciiLetter_not_space _ h, asciiLetter_not_delim _ h⟩
  | num s =>
    intro c hc
    simp only [renderRaw] at hc
    have hg := goodNumChar_spec c ((goodTok_num_parts s h).2.1 c hc)
    exact ⟨hg.2.2.1, hg.2.1⟩

theorem goodTok_core_cons (t : RawTok) (h : goodTok t = true) :
    ∃ c cs, renderRaw t = c :: cs ∧ isJsSpace c = false ∧ isSplitDelim c = false := by
  obtain ⟨c, cs, hcs⟩ := List.exists_cons_of_ne_nil (goodTok_core_ne t h)
  have := goodTok_core_chars t h c (by rw [hcs]; simp)
  exact ⟨c, cs, hcs, this.1, this.2⟩

theorem goodTok_core_last (t : RawTok) (h : goodTok t = true) :
    ∃ pre c, renderRaw t = pre ++ [c] ∧ isJsSpace c = false := by
  have hne := goodTok_core_ne t h
  refine ⟨(renderRaw t).dropLast, (renderRaw t).getLast hne, ?_, ?_⟩
  · rw [List.dropLast_append_getLast hne]
  · exact (goodTok_core_chars t h _ (List.getLast_mem hne)).1

theorem sidePad_space (t : RawTok) : ∀ c ∈ sidePad t, isJsSpace c = true := by
  cases t with
  | cmd c0 =>
    intro c hc
    simp only [sidePad, List.mem_singleton] at hc
    subst hc
    rfl
  | num s =>
    intro c hc
    simp [sidePad] at hc

theorem sidePad_delim (t : RawTok) : ∀ c ∈ sidePad t, isSplitDelim c = true := by
  cases t with
  | cmd c0 =>
    intro c hc
    simp only [sidePad, List.mem_singleton] at hc
    subst hc
    rfl
  | num s =>
    intro c hc
    simp [sidePad] at hc

theorem spaceOut_core (t : RawTok) (h : goodTok t = true) :
    spaceOutLetters (renderRaw t) = sidePad t ++ renderRaw t ++ sidePad t := by
  cases t with
  | cmd c =>
    simp only [goodTok] at h
    simp [renderRaw, sidePad, spaceOutLetters_cmd c h]
  | num s =>
    have hno : ∀ c ∈ s, isAsciiLetter c = false := fun c hc =>
      (goodNumChar_spec c ((goodTok_num_parts s h).2.1 c hc)).2.2.2
    simp [renderRaw, sidePad, spaceOutLetters_no_letter s hno]

theorem renderPath_cons (t r : RawTok) (rest : List RawTok) :
    renderPath (t :: r :: rest) = renderRaw t ++ ' ' :: renderPath (r :: rest) := rfl

theorem cchain_two (t r : RawTok) (rest : List RawTok) :
    cchain (t :: r :: rest) =
      renderRaw t ++ (sidePad t ++ ' ' :: sidePad r) ++ cchain (r :: rest) := rfl

theorem lastTok_cons (t r : RawTok) (rest : List RawTok) :
    lastTok t (r :: rest) = lastTok r rest := rfl

theorem spaceOut_renderPath : ∀ (rest : List RawTok) (t : RawTok),
    (∀ x ∈ t :: rest, goodTok x = true) →
    spaceOutLetters (renderPath (t :: rest)) =
      sidePad t ++ cchain (t :: rest) ++ sidePad (lastTok t rest) := by
  intro rest
  induction rest with
  | nil =>
    intro t h
    have := spaceOut_core t (h t (by simp))
    simpa [renderPath, cchain, lastTok] using this
  | cons r rest ih =>
    intro t h
    have ht := h t (by simp)
    have htail : ∀ x ∈ r :: rest, goodTok x = true := fun x hx => h x (by simp [hx])
    rw [renderPath_cons,
      show renderRaw t ++ ' ' :: renderPath (r :: rest) =
        renderRaw t ++ ([' '] ++ renderPath (r :: rest)) from rfl,
      spaceOutLetters_append, spaceOutLetters_append, spaceOutLetters_space,
      spaceOut_core t ht, ih r htail, cchain_two, lastTok_cons]
    simp [List.append_assoc]

/-! ### Trimming and splitting the spaced chain -/

theorem trimJs_pad (a X b : List Char)
    (ha : ∀ c ∈ a, isJsSpace c = true) (hb : ∀ c ∈ b, isJsSpace c = true)
    (hhead : ∃ c cs, X = c :: cs ∧ isJsSpace c = false)
    (hlast : ∃ pre c, X = pre ++ [c] ∧ isJsSpace c = false) :
    trimJs (a ++ X ++ b) = X := by
  obtain ⟨c, cs, hX1, hc⟩ := hhead
  obtain ⟨pre, c2, hX2, hc2⟩ := hlast
  rw [trimJs, List.append_assoc, dropWhile_append_all a (X ++ b) ha, hX1,
    List.cons_append, dropWhile_cons_neg c (cs ++ b) hc, ← List.cons_append, ← hX1,
    List.reverse_append,
    dropWhile_append_all b.reverse X.reverse (fun c' hc' => hb c' (by simpa using hc')),
    hX2, List.reverse_append]
  simp only [List.reverse_singleton, List.singleton_append]
  rw [dropWhile_cons_neg c2 pre.reverse hc2]
  simp

theorem cchain_head (t : RawTok) (rest : List RawTok)
    (h : ∀ x ∈ t :: rest, goodTok x = true) :
    ∃ c cs, cchain (t :: rest) = c :: cs ∧ isJsSpace c = false ∧
      isSplitDelim c = false := by
  obtain ⟨c, cs', hcore, h1, h2⟩ := goodTok_core_cons t (h t (by simp))
  cases rest with
  | nil => exact ⟨c, cs', by simpa [cchain] using hcore, h1, h2⟩
  | cons r rest' =>
    refine ⟨c, cs' ++ ((sidePad t ++ ' ' :: sidePad r) ++ cchain (r :: rest')), ?_, h1, h2⟩
    rw [cchain_two, hcore]
    simp

theorem cchain_last : ∀ (rest : List RawTok) (t : RawTok),
    (∀ x ∈ t :: rest, goodTok x = true) →
    ∃ pre c, cchain (t :: rest) = pre ++ [c] ∧ isJsSpace c = false := by
  intro rest
  induction rest with
  | nil =>
    intro t h
    obtain ⟨pre, c, hc, h1⟩ := goodTok_core_last t (h t (by simp))
    exact ⟨pre, c, by simpa [cchain] using hc, h1⟩
  | cons r rest' ih =>
    intro t h
    obtain ⟨pre, c, hc, h1⟩ := ih r (fun x hx => h x (by simp [hx]))
    refine ⟨renderRaw t ++ (sidePad t ++ ' ' :: sidePad r) ++ pre, c, ?_, h1⟩
    rw [cchain_two, hc]
    simp

theorem splitJsAux_accum : ∀ (t s acc : List Char),
    (∀ c ∈ t, isSplitDelim c = false) →
    splitJsAux (t ++ s) (some acc) = splitJsAux s (some (t.reverse ++ acc)) := by
  intro t
  induction t with
  | nil => intro s acc _; simp
  | cons c cs ih =>
    intro s acc h
    rw [List.cons_append]
    simp only [splitJsAux, h c (by simp), Bool.false_eq_true, if_false]
    rw [ih s (c :: acc) (fun c' hc' => h c' (by simp [hc']))]
    simp

theorem splitJsAux_flush (s acc : List Char) :
    splitJsAux (' ' :: s) (some acc) = acc.reverse :: splitJsAux s none := by
  simp [splitJsAux, show isSplitDelim ' ' = true from rfl]

theorem splitJsAux_skip : ∀ (g s : List Char), (∀ c ∈ g, isSplitDelim c = true) →
    splitJsAux (g ++ s) none = splitJsAux s none := by
  intro g
  induction g with
  | nil => intro s _; rfl
  | cons c cs ih =>
    intro s h
    rw [List.cons_append]
    simp [splitJsAux, h c (by simp), ih s (fun c' hc' => h c' (by simp [hc']))]

theorem splitJsAux_none_some (c : Char) (cs : List Char) (h : isSplitDelim c = false) :
    splitJsAux (c :: cs) none = splitJsAux (c :: cs) (some []) := by
  simp [splitJsAux, h]

theorem splitJs_cchain : ∀ (rest : List RawTok) (t : RawTok),
    (∀ x ∈ t :: rest, goodTok x = true) →
    splitJsAux (cchain (t :: rest)) (some []) = (t :: rest).map renderRaw := by
  intro rest
  induction rest with
  | nil =>
    intro t h
    have hdel : ∀ c ∈ renderRaw t, isSplitDelim c = false := fun c hc =>
      (goodTok_core_chars t (h t (by simp)) c hc).2
    rw [show cchain [t] = renderRaw t from rfl,
      ← List.append_nil (renderRaw t), splitJsAux_accum _ _ _ hdel]
    simp [splitJsAux]
  | cons r rest' ih =>
    intro t h
    have ht := h t (by simp)
    have htail : ∀ x ∈ r :: rest', goodTok x = true := fun x hx => h x (by simp [hx])
    have hdel : ∀ c ∈ renderRaw t, isSplitDelim c = false := fun c hc =>
      (goodTok_core_chars t ht c hc).2
    rw [cchain_two, List.append_assoc, splitJsAux_accum _ _ _ hdel]
    have hgap : ∃ g', (sidePad t ++ ' ' :: sidePad r) ++ cchain (r :: rest') =
        ' ' :: (g' ++ cchain (r :: rest')) ∧ ∀ c ∈ g', isSplitDelim c = true := by
      refine ⟨sidePad t ++ sidePad r, ?_, ?_⟩
      · cases t <;> cases r <;> simp [sidePad]
      · intro c hc
        rcases List.mem_append.1 hc with hc' | hc'
        · exact sidePad_delim t c hc'
        · exact sidePad_delim r c hc'
    obtain ⟨g', hg, hg'⟩ := hgap
    rw [hg, splitJsAux_flush, splitJsAux_skip g' _ hg']
    obtain ⟨c, cs, hcc, _, hcd⟩ := cchain_head r rest' htail
    rw [hcc, splitJsAux_none_some c cs hcd, ← hcc, ih r htail]
    simp

theorem classify_core (t : RawTok) (h : goodTok t = true) :
    classifyToken (renderRaw t) = interpTok t := by
  cases t with
  | cmd c =>
    simp only [goodTok] at h
    simp [classifyToken, renderRaw, interpTok, asciiLetter_matches c h]
  | num s =>
    have hno : ∀ c ∈ s, matchesAZaz c = false := fun c hc =>
      (goodNumChar_spec c ((goodTok_num_parts s h).2.1 c hc)).1
    have hany : s.any matchesAZaz = false := by
      rw [List.any_eq_false]
      intro c hc
      simp [hno c hc]
    simp [classifyToken, renderRaw, interpTok, hany]

theorem splitPathTokens_renderPath (ts : List RawTok) (h : wellFormedPath ts = true) :
    splitPathTokens (renderPath ts) = ts.map interpTok := by
  cases ts with
  | nil => simp [wellFormedPath] at h
  | cons t rest =>
    have hall : ∀ x ∈ t :: rest, goodTok x = true := by
      simp only [wellFormedPath, Bool.and_eq_true] at h
      exact fun x hx => List.all_eq_true.1 h.2 x hx
    rw [splitPathTokens, spaceOut_renderPath rest t hall]
    obtain ⟨c0, cs0, hc0, hsp0, _⟩ := cchain_head t rest hall
    rw [trimJs_pad _ _ _ (sidePad_space t) (sidePad_space (lastTok t rest))
      ⟨c0, cs0, hc0, hsp0⟩ (cchain_last rest t hall)]
    rw [show splitJs (cchain (t :: rest)) = splitJsAux (cchain (t :: rest)) (some [])
      from rfl]
    rw [splitJs_cchain rest t hall, List.map_map]
    exact List.map_congr_left (fun x hx => classify_core x (hall x hx))

/-! ### Segment grouping -/

theorem segGo_flatten : ∀ (arr cur : List PathItem),
    (segGo arr cur).flatten = cur ++ arr := by
  intro arr
  induction arr with
  | nil => intro cur; simp [segGo]
  | cons it rest ih =>
    intro cur
    cases it with
    | str s =>
      by_cases hc : cur.isEmpty
      · have hcur : cur = [] := by simpa [List.isEmpty_iff] using hc
        subst hcur
        simp [segGo, ih]
      · simp [segGo, hc, ih]
    | num v => simp [segGo, ih]

theorem segGo_ne_nil : ∀ (arr cur : List PathItem), (cur = [] → arr ≠ []) →
    ∀ seg ∈ segGo arr cur, seg ≠ [] := by
  intro arr
  induction arr with
  | nil =>
    intro cur h seg hseg
    have hseg' : seg = cur := by simpa [segGo] using hseg
    subst hseg'
    intro hcur
    exact h hcur rfl
  | cons it rest ih =>
    intro cur h seg hseg
    cases it with
    | str s =>
      by_cases hc : cur.isEmpty
      · simp only [segGo, hc, if_true] at hseg
        exact ih [PathItem.str s] (fun hh => absurd hh (by simp)) seg hseg
      · simp only [segGo, hc, Bool.false_eq_true, if_false, List.mem_cons] at hseg
        rcases hseg with rfl | hseg
        · intro hcur
          exact hc (by simp [hcur])
        · exact ih [PathItem.str s] (fun hh => absurd hh (by simp)) seg hseg
    | num v =>
      simp only [segGo] at hseg
      exact ih (cur ++ [PathItem.num v]) (fun hh => absurd hh (by simp)) seg hseg

/-! ### Re-joined tokens -/

theorem renderItem_reTok (t : RawTok) :
    renderRaw (reTok t) = renderItem (interpTok t) := by
  cases t with
  | cmd c => rfl
  | num s =>
    rcases ho : parseFloatJs s with _ | q <;>
      simp [reTok, renderRaw, renderItem, interpTok, ho]

theorem interpTok_reTok (t : RawTok) (h : goodTok t = true) :
    interpTok (reTok t) = interpTok t := by
  cases t with
  | cmd c => rfl
  | num s =>
    obtain ⟨_, _, hsome⟩ := goodTok_num_parts s h
    rcases ho : parseFloatJs s with _ | q
    · simp [ho] at hsome
    · have hd := parseFloatJs_den_dvd s q ho
      simp [reTok, interpTok, ho, parseFloatJs_renderNum q hd]

theorem padDigits_all_digit (k m : ℕ) : ∀ c ∈ padDigits k m, isDigitC c = true := by
  intro c hc
  rw [padDigits, List.mem_append] at hc
  rcases hc with hc | hc
  · rw [List.eq_of_mem_replicate hc]
    rfl
  · exact natDigits_all_digit m c hc

theorem goodNumChar_renderNum (q : ℚ) : ∀ c ∈ renderNum q, goodNumChar c = true := by
  intro c hc
  have hdig_or : isDigitC c = true ∨ c = '-' ∨ c = '.' := by
    simp only [renderNum] at hc
    rcases List.mem_append.1 hc with hc1 | hc2
    · rcases List.mem_append.1 hc1 with hc0 | hcd
      · by_cases hn : q.num < 0
        · rw [if_pos hn] at hc0
          simp only [List.mem_singleton] at hc0
          exact Or.inr (Or.inl hc0)
        · rw [if_neg hn] at hc0
          simp at hc0
      · exact Or.inl (natDigits_all_digit _ c hcd)
    · rcases List.mem_cons.1 hc2 with rfl | hcp
      · exact Or.inr (Or.inr rfl)
      · exact Or.inl (padDigits_all_digit _ _ c hcp)
  rcases hdig_or with hd | hd | hd
  · have hcl := isDigitC_classes c hd
    simp [goodNumChar, hcl.1, hcl.2.1, hcl.2.2.1]
  · subst hd
    rfl
  · subst hd
    rfl

theorem renderNum_ne_nil (q : ℚ) : renderNum q ≠ [] := by
  simp only [renderNum]
  intro hcon
  rcases List.append_eq_nil.1 hcon with ⟨h1, h2⟩
  exact List.cons_ne_nil _ _ h2

theorem goodTok_reTok (t : RawTok) (h : goodTok t = true) : goodTok (reTok t) = true := by
  cases t with
  | cmd c => exact h
  | num s =>
    obtain ⟨_, _, hsome⟩ := goodTok_num_parts s h
    rcases ho : parseFloatJs s with _ | q
    · simp [ho] at hsome
    · have hd := parseFloatJs_den_dvd s q ho
      simp only [reTok, ho, goodTok, Bool.and_eq_true]
      refine ⟨⟨?_, ?_⟩, ?_⟩
      · simp [renderNum_ne_nil q]
      · rw [List.all_eq_true]
        exact fun c hc => goodNumChar_renderNum q c hc
      · rw [parseFloatJs_renderNum q hd]
        rfl

theorem wellFormed_reTok (ts : List RawTok) (h : wellFormedPath ts = true) :
    wellFormedPath (ts.map reTok) = true := by
  simp only [wellFormedPath, Bool.and_eq_true, Bool.not_eq_true'] at h ⊢
  refine ⟨by simpa [List.isEmpty_iff] using h.1, ?_⟩
  rw [List.all_eq_true]
  intro x hx
  rw [List.mem_map] at hx
  obtain ⟨t, ht, rfl⟩ := hx
  exact goodTok_reTok t (List.all_eq_true.1 h.2 t ht)

theorem joinSp_append (A B : List (List Char)) (hA : A ≠ []) (hB : B ≠ []) :
    joinSp (A ++ B) = joinSp A ++ ' ' :: joinSp B := by
  induction A with
  | nil => exact absurd rfl hA
  | cons x rest ih =>
    cases rest with
    | nil =>
      obtain ⟨b, B', rfl⟩ := List.exists_cons_of_ne_nil hB
      rfl
    | cons y rest' =>
      rw [show (x :: y :: rest') ++ B = x :: ((y :: rest') ++ B) from rfl,
        show joinSp (x :: ((y :: rest') ++ B)) =
          x ++ ' ' :: joinSp ((y :: rest') ++ B) from rfl,
        ih (by simp)]
      simp [joinSp]

theorem rejoinSegments_flatten : ∀ (segs : List (List PathItem)),
    (∀ s ∈ segs, s ≠ []) →
    rejoinSegments segs = joinSp ((segs.flatten).map renderItem) := by
  intro segs
  induction segs with
  | nil => intro _; rfl
  | cons s rest ih =>
    intro h
    cases rest with
    | nil => simp [rejoinSegments, joinSp]
    | cons r rest' =>
      have hs : s ≠ [] := h s (by simp)
      have hr : r ≠ [] := h r (by simp)
      have htail : ∀ x ∈ r :: rest', x ≠ [] := fun x hx => h x (by simp [hx])
      have hfl : (r :: rest').flatten ≠ [] := by
        rw [show (r :: rest').flatten = r ++ rest'.flatten from rfl]
        intro hcon
        exact hr (List.append_eq_nil.1 hcon).1
      rw [show rejoinSegments (s :: r :: rest') =
          joinSp (s.map renderItem) ++ ' ' :: rejoinSegments (r :: rest') from rfl,
        ih htail,
        show (s :: r :: rest').flatten = s ++ (r :: rest').flatten from rfl,
        List.map_append,
        joinSp_append (s.map renderItem) ((r :: rest').flatten.map renderItem)
          (fun hcon => hs (List.map_eq_nil_iff.1 hcon))
          (fun hcon => hfl (List.map_eq_nil_iff.1 hcon))]

/-! ### Claim theorems on the tokenizer -/

/-- C5: splitting a well-formed path string and re-joining the segments
back into a string preserves the command and coordinate sequence: the
re-joined string splits into exactly the same segments (a
parse-serialize-parse round trip). -/
theorem splitPath_roundTrip (ts : List RawTok) (h : wellFormedPath ts = true) :
    splitPath (rejoinSegments (splitPath (renderPath ts))) =
      splitPath (renderPath ts) := by
  have hne : ts ≠ [] := by
    simp only [wellFormedPath, Bool.and_eq_true, Bool.not_eq_true'] at h
    simpa [List.isEmpty_iff] using h.1
  have hT := splitPathTokens_renderPath ts h
  have h1 : splitPath (renderPath ts) = pathToSegments (ts.map interpTok) := by
    rw [splitPath, hT]
  have hsegs : ∀ s ∈ pathToSegments (ts.map interpTok), s ≠ [] := by
    intro s hs
    refine segGo_ne_nil (ts.map interpTok) [] (fun _ => ?_) s hs
    simp only [ne_eq, List.map_eq_nil_iff]
    exact hne
  have h2 : rejoinSegments (splitPath (renderPath ts)) = renderPath (ts.map reTok) := by
    rw [h1, rejoinSegments_flatten _ hsegs,
      show (pathToSegments (ts.map interpTok)).flatten = [] ++ ts.map interpTok from
        segGo_flatten (ts.map interpTok) [],
      List.nil_append, List.map_map, renderPath, List.map_map]
    congr 1
    exact List.map_congr_left (fun t _ => (renderItem_reTok t).symm)
  rw [h2]
  have hwf' := wellFormed_reTok ts h
  rw [splitPath, splitPathTokens_renderPath _ hwf', List.map_map, h1]
  congr 1
  refine List.map_congr_left (fun t ht => interpTok_reTok t ?_)
  simp only [wellFormedPath, Bool.and_eq_true] at h
  exact List.all_eq_true.1 h.2 t ht

/-- Witness for C5 at a concrete well-formed path. -/
theorem splitPath_roundTrip_witness :
    wellFormedPath [RawTok.cmd 'M', RawTok.num ['1'], RawTok.num ['2', '.', '5']] = true ∧
    splitPath (rejoinSegments (splitPath
        (renderPath [RawTok.cmd 'M', RawTok.num ['1'], RawTok.num ['2', '.', '5']]))) =
      splitPath (renderPath [RawTok.cmd 'M', RawTok.num ['1'], RawTok.num ['2', '.', '5']]) :=
  ⟨by decide, splitPath_roundTrip _ (by decide)⟩

/-- C2 (amended): `splitPath` spaces out each ASCII letter, trims, splits
on runs of space, comma and semicolon, keeps every token matching the
source's `[A-za-z]` class (letters plus the six ASCII characters between
`Z` and `a`) and converts every other token with `parseFloat`; the flat
sequence is grouped into per-command segments by the downstream
segmenter. -/
theorem splitPath_pipeline (s : List Char) :
    splitPath s =
      pathToSegments ((splitJs (trimJs (spaceOutLetters s))).map classifyToken) ∧
    (∀ t : List Char, classifyToken t =
      if t.any matchesAZaz then PathItem.str t else PathItem.num (parseFloatJs t)) ∧
    splitPath
        ('M' :: ' ' :: '1' :: ' ' :: '2' :: ' ' :: 'L' :: ' ' :: '3' :: ' ' :: '4' :: []) =
      [[PathItem.str ['M'], PathItem.num (parseFloatJs ['1']),
        PathItem.num (parseFloatJs ['2'])],
       [PathItem.str ['L'], PathItem.num (parseFloatJs ['3']),
        PathItem.num (parseFloatJs ['4'])]] ∧
    parseFloatJs ['4', '.', '5'] = some (9 / 2) := by
  refine ⟨rfl, fun t => rfl, rfl, ?_⟩
  rw [show parseFloatJs ['4', '.', '5'] =
      some ((1 : ℚ) *
        ((digitsToNat ['4'] : ℚ) + (digitsToNat ['5'] : ℚ) / (10 : ℚ) ^ (1 : ℕ))) from rfl,
    show digitsToNat ['4'] = 4 from rfl, show digitsToNat ['5'] = 5 from rfl]
  norm_num

/-- C2 counterexample: the claim classifies by "contains a letter", but
the code tests the `[A-za-z]` class, so the letter-free token `_` is
kept as a string instead of being converted to a float; and the claim
splits on whitespace, but the code splits only on space, comma and
semicolon, so a tab does not separate two numbers. -/
theorem splitPath_classification_counterexample :
    (['_'].any isAsciiLetter = false) ∧
    splitPathTokens ['_'] = [PathItem.str ['_']] ∧
    splitPathTokens ['_'] ≠ [PathItem.num (parseFloatJs ['_'])] ∧
    specIsDelim '\t' = true ∧
    isSplitDelim '\t' = false ∧
    (splitPathTokens ['1', '\t', '2']).length = 1 :=
  ⟨rfl, rfl, by decide, rfl, rfl, rfl⟩

end HighchartsMaps
